import Mathlib

/-!
Verification of the path-decomposition logic of `custom_api.py`.

The source is a single Python module that splits a slash-delimited URL
path such as `api/oil/series/BRENT/m/eop/2015/2017/csv` into a mapping
of query parameters.  The embedding below models strings as `List Char`
(named `Str`) so that the tokenizer can be reasoned about by structural
induction.  Python behaviours that matter here are modelled exactly:

* `path.split('/')` keeps empty segments; the list comprehension
  `[t.strip() for t in path.split('/') if t]` filters on the raw
  (unstripped) segment and then strips, so a whitespace-only segment
  becomes an empty token.
* `str.strip()` removes leading and trailing whitespace.  Tokens are
  modelled over the ASCII character set (the inputs of this API), so
  whitespace is the six ASCII whitespace characters and `str.isdigit`
  is "non-empty and all characters in 0..9".
* `freq not in ALLOWED_FREQUENCIES` is a Python substring test on the
  string "dwmqa", not a set-membership test.
* `datetime.date` accepts years 1..9999 and raises `ValueError`
  otherwise; `strftime('%Y-%m-%d')` on glibc prints the year unpadded
  and pads month and day to two digits.
* Python exceptions (`AssertionError`, `IndexError`, `KeyError` and
  the distinct `ValueError`s) become constructors of `Err`, and every
  modelled function returns `Except Err _`.
-/

namespace CustomApi

/-- Strings of the model: lists of characters. -/
abbrev Str := List Char

/-- Python `str.strip` whitespace test, restricted to ASCII whitespace. -/
def pyWs (c : Char) : Bool :=
  c = ' ' || c = '\t' || c = '\n' || c = '\r' || c = '\x0b' || c = '\x0c'

/-- Python `str.strip()`: drop leading and trailing whitespace. -/
def pyStrip (s : Str) : Str :=
  ((s.dropWhile pyWs).reverse.dropWhile pyWs).reverse

/-- Python `str.split('/')`: split on every slash, keeping empty parts. -/
def pySplit : Str → List Str
  | [] => [[]]
  | c :: cs =>
    if c = '/' then [] :: pySplit cs
    else
      match pySplit cs with
      | [] => [[c]]
      | t :: ts => (c :: t) :: ts

/-- The token list `[t.strip() for t in s.split('/') if t]` used by both
`mimic_custom_api` and `InnerPath.__init__`. -/
def tokenize (s : Str) : List Str :=
  ((pySplit s).filter (fun t => !t.isEmpty)).map pyStrip

/-- Python `'/'.join(parts)`. -/
def joinTok : List Str → Str
  | [] => []
  | [t] => t
  | t :: ts => t ++ '/' :: joinTok ts

/-- Python `path.startswith('api/')`. -/
def startsApi : Str → Bool
  | 'a' :: 'p' :: 'i' :: '/' :: _ => true
  | _ => false

/-- Python `str.isdigit` on ASCII strings: non-empty, all characters 0..9. -/
def isDigits (s : Str) : Bool :=
  !s.isEmpty && s.all Char.isDigit

/-- Value of an ASCII digit character. -/
def digitVal (c : Char) : Nat := c.toNat - 48

/-- Accumulator-style decimal reader. -/
def strToNatAux (a : Nat) : Str → Nat
  | [] => a
  | c :: t => strToNatAux (10 * a + digitVal c) t

/-- Python `int()` on an all-digit string. -/
def strToNat (s : Str) : Nat := strToNatAux 0 s

/-- Decimal digit as a character. -/
def digitChar (d : Nat) : Char := Char.ofNat (48 + d)

/-- Fuel-driven decimal printer (structural, so it reduces by `rfl`). -/
def natToStrAux : Nat → Nat → Str
  | 0, _ => []
  | fuel + 1, n =>
    if n < 10 then [digitChar n]
    else natToStrAux fuel (n / 10) ++ [digitChar (n % 10)]

/-- Python `str()` of a non-negative integer (also glibc `strftime` `%Y`). -/
def natToStr (n : Nat) : Str := natToStrAux (n + 1) n

/-- Python `tokens.pop(tokens.index(x))`: remove the first occurrence. -/
def eraseFirst : List Str → Str → List Str
  | [], _ => []
  | t :: ts, x => if t = x then ts else t :: eraseFirst ts x

/-- Zero-padded two-digit field, as glibc `strftime` `%m` / `%d`. -/
def twoDigit (k : Nat) : Str :=
  if k < 10 then ['0', digitChar k] else natToStr k

/-- Allowed domains (declared in the source; never consulted by the code). -/
def ALLOWED_DOMAINS : List Str := ["ru".data, "oil".data, "all".data]

/-- The string `'dwmqa'` used by `get_freq` via Python's `in` operator. -/
def ALLOWED_FREQUENCIES : Str := "dwmqa".data

def ALLOWED_REAL_RATES : List Str := ["rog".data, "yoy".data, "base".data]

def ALLOWED_AGGREGATORS : List Str := ["eop".data, "avg".data]

def ALLOWED_FINALISERS : List Str :=
  ["info".data, "csv".data, "list".data, "pandas".data, "xlsx".data]

/-- Errors raised by the source, one constructor per distinct exception. -/
inductive Err where
  | assertionError : Err
  | indexError : Err
  | invalidFrequency : Str → Err
  | ambiguousSuffix : List Str → Err
  | conflictingSuffix : Err
  | yearOutOfRange : Nat → Err
  | keyError : Str → Err
deriving DecidableEq, Repr

/-- Python list-prefix test used for the substring test below. -/
def listStarts : Str → Str → Bool
  | [], _ => true
  | _ :: _, [] => false
  | a :: xs, b :: ys => a = b && listStarts xs ys

/-- Python `needle in haystack` on strings: contiguous substring test. -/
def listHasSub (n : Str) : Str → Bool
  | [] => n.isEmpty
  | c :: t => listStarts n (c :: t) || listHasSub n t

/-- Python truthiness of an optional string. -/
def pyTruthy : Option Str → Bool
  | none => false
  | some s => !s.isEmpty

/-- Python f-string rendering of an optional string (`None` prints as "None"). -/
def pyFmt : Option Str → Str
  | some s => s
  | none => "None".data

/-- `get_freq` from the source: note the `in` on the string "dwmqa" is a
substring test, so e.g. "wm" passes. -/
def get_freq (f : Str) : Except Err Str :=
  if listHasSub f ALLOWED_FREQUENCIES then .ok f
  else .error (.invalidFrequency f)

/-- `InnerPath.as_date`: `None` passes through; otherwise build a
`datetime.date` (years 1..9999, else `ValueError`) and format it. -/
def as_date : Option Str → Nat → Nat → Except Err (Option Str)
  | none, _, _ => .ok none
  | some y, month, day =>
    if 1 ≤ strToNat y ∧ strToNat y ≤ 9999 then
      .ok (some (natToStr (strToNat y) ++ '-' :: (twoDigit month ++ '-' :: twoDigit day)))
    else .error (.yearOutOfRange (strToNat y))

/-- `InnerPath.get_years`: collect all-digit tokens; if there are one or
two of them take them as start and end year and remove them. -/
def get_years (tokens : List Str) : (Option Str × Option Str) × List Str :=
  match tokens.filter isDigits with
  | [s] => ((some s, none), eraseFirst tokens s)
  | [s, e] => ((some s, some e), eraseFirst (eraseFirst tokens s) e)
  | _ => ((none, none), tokens)

/-- `InnerPath.assign_dates`: extract years and render the date bounds. -/
def assign_dates (tokens : List Str) :
    Except Err ((Option Str × Option Str) × List Str) :=
  match as_date (get_years tokens).1.1 1 1 with
  | .error e => .error e
  | .ok sd =>
    match as_date (get_years tokens).1.2 12 31 with
    | .error e => .error e
    | .ok ed => .ok ((sd, ed), (get_years tokens).2)

/-- `InnerPath.assign_values`: the values of the vocabulary present among
the tokens (at most once per vocabulary value, by construction). -/
def assign_values (tokens : List Str) (allowed : List Str) :
    Except Err (Option Str × List Str) :=
  match allowed.filter (fun p => decide (p ∈ tokens)) with
  | [] => .ok (none, tokens)
  | [x] => .ok (some x, eraseFirst tokens x)
  | found => .error (.ambiguousSuffix found)

/-- The fields of `InnerPath.dict` before the `unit` assignment. -/
structure PreDict where
  start_date : Option Str
  end_date : Option Str
  fin : Option Str
  rate : Option Str
  agg : Option Str
deriving DecidableEq, Repr

/-- The full `InnerPath.dict`. -/
structure InnerDict where
  start_date : Option Str
  end_date : Option Str
  fin : Option Str
  rate : Option Str
  agg : Option Str
  unit : Option Str
deriving DecidableEq, Repr

/-- The body of `InnerPath.__init__` up to (and including) the
rate/aggregation conflict check, returning the leftover token bag. -/
def innerCoreToks (tokens : List Str) : Except Err (PreDict × List Str) :=
  match assign_dates tokens with
  | .error e => .error e
  | .ok ((sd, ed), t1) =>
    match assign_values t1 ALLOWED_FINALISERS with
    | .error e => .error e
    | .ok (fin, t2) =>
      match assign_values t2 ALLOWED_REAL_RATES with
      | .error e => .error e
      | .ok (rate, t3) =>
        match assign_values t3 ALLOWED_AGGREGATORS with
        | .error e => .error e
        | .ok (agg, t4) =>
          if pyTruthy rate && pyTruthy agg then .error .conflictingSuffix
          else .ok (⟨sd, ed, fin, rate, agg⟩, t4)

/-- The final `unit` assignment of `InnerPath.__init__`: the first leftover
token, or `self.dict['rate'] or None`. -/
def finalizeInner (pre : PreDict) (t4 : List Str) : InnerDict :=
  match t4 with
  | u :: _ => ⟨pre.start_date, pre.end_date, pre.fin, pre.rate, pre.agg, some u⟩
  | [] => ⟨pre.start_date, pre.end_date, pre.fin, pre.rate, pre.agg,
           if pyTruthy pre.rate then pre.rate else none⟩

/-- `InnerPath(inner_path).get_dict()`. -/
def InnerPath (s : Str) : Except Err InnerDict :=
  match innerCoreToks (tokenize s) with
  | .error e => .error e
  | .ok (pre, t4) => .ok (finalizeInner pre t4)

/-- A Python dict with string-or-None values, in insertion order. -/
abbrev Ctx := List (Str × Option Str)

def kDomain : Str := "domain".data
def kVarname : Str := "varname".data
def kFreq : Str := "freq".data
def kStart : Str := "start_date".data
def kEnd : Str := "end_date".data
def kFin : Str := "fin".data
def kRate : Str := "rate".data
def kAgg : Str := "agg".data
def kUnit : Str := "unit".data
def kName : Str := "name".data

/-- The mandatory part of the context dict. -/
def baseCtx (dm v f : Str) : Ctx :=
  [(kDomain, some dm), (kVarname, some v), (kFreq, some f)]

/-- The entries `ctx.update(d)` adds, in the insertion order of
`InnerPath.dict`. -/
def innerPairs (d : InnerDict) : Ctx :=
  [(kStart, d.start_date), (kEnd, d.end_date), (kFin, d.fin),
   (kRate, d.rate), (kAgg, d.agg), (kUnit, d.unit)]

/-- First value stored under a key, if the key is present. -/
def valOf : Ctx → Str → Option (Option Str)
  | [], _ => none
  | (k, v) :: rest, key => if k = key then some v else valOf rest key

/-- Python `ctx[key]`: `KeyError` when the key is absent. -/
def dictGet (ctx : Ctx) (k : Str) : Except Err (Option Str) :=
  match valOf ctx k with
  | some v => .ok v
  | none => .error (.keyError k)

/-- Key-presence test. -/
def hasKeyB (ctx : Ctx) (k : Str) : Bool := (valOf ctx k).isSome

/-- `mimic_custom_api` from the source: assert the `api/` literal, split,
read the fixed positions, and parse the inner path when there are at
least six tokens. -/
def mimic_custom_api (path : Str) : Except Err Ctx :=
  if startsApi path then
    match (tokenize path).get? 1 with
    | none => .error .indexError
    | some dm =>
      match (tokenize path).get? 3 with
      | none => .error .indexError
      | some v =>
        match (tokenize path).get? 4 with
        | none => .error .indexError
        | some f =>
          match get_freq f with
          | .error e => .error e
          | .ok fq =>
            if 6 ≤ (tokenize path).length then
              match InnerPath (joinTok ((tokenize path).drop 5)) with
              | .error e => .error e
              | .ok d => .ok (baseCtx dm v fq ++ innerPairs d)
            else .ok (baseCtx dm v fq)
  else .error .assertionError

/-- `make_db_api_get_call_parameters` from the source.  The generator
`(ctx[key] for key in ['varname', 'unit'])` looks up `varname` and then
`unit`, so a missing `unit` key raises `KeyError('unit')`. -/
def make_db_api_get_call_parameters (path : Str) : Except Err Ctx :=
  match mimic_custom_api path with
  | .error e => .error e
  | .ok ctx =>
    match dictGet ctx kVarname with
    | .error e => .error e
    | .ok nameV =>
      match dictGet ctx kUnit with
      | .error e => .error e
      | .ok unitV =>
        let name :=
          if pyTruthy unitV then pyFmt nameV ++ '_' :: pyFmt unitV
          else pyFmt nameV
        match dictGet ctx kFreq with
        | .error e => .error e
        | .ok freqV =>
          match dictGet ctx kStart with
          | .error e => .error e
          | .ok sdV =>
            match dictGet ctx kEnd with
            | .error e => .error e
            | .ok edV =>
              .ok ([(kName, some name), (kFreq, freqV)]
                ++ (if pyTruthy sdV then [(kStart, sdV)] else [])
                ++ (if pyTruthy edV then [(kEnd, edV)] else []))

/-- Year component of a rendered date: the characters before the dash. -/
def yearOf (d : Str) : Str := d.takeWhile (fun c => c ≠ '-')

/-- Optional value as a zero- or one-element segment list. -/
def optL : Option Str → List Str
  | some s => [s]
  | none => []

/-- Modelled from the spec: the "reconstructed canonical path
(domain/series/varname/freq/rate-or-agg/start/end/fin)" of the spec's
idempotence property has no implementation in `src/`.  This definition
follows the spec's words: the mandatory `api` literal, then domain,
the `series` literal, varname and freq, then the rate (or, failing
that, the aggregation) suffix, the start and end years (the year
component of the stored dates) and the finaliser, joined by slashes.
Absent keys and `None` values contribute no segment. -/
def reconstruct (ctx : Ctx) : Str :=
  let mand : Str → Str := fun k => ((valOf ctx k).getD none).getD []
  let opt : Str → Option Str := fun k => (valOf ctx k).getD none
  let rateOrAgg : Option Str :=
    match opt kRate with
    | some r => some r
    | none => opt kAgg
  let years : List Str :=
    (match opt kStart with
     | some d => [yearOf d]
     | none => []) ++
    (match opt kEnd with
     | some d => [yearOf d]
     | none => [])
  joinTok (["api".data, mand kDomain, "series".data, mand kVarname, mand kFreq]
    ++ optL rateOrAgg ++ years ++ optL (opt kFin))

/-- Tokens produced by the tokenizer: slash-free and already stripped. -/
def cleanTok (t : Str) : Prop := '/' ∉ t ∧ pyStrip t = t

/-- Year segments contributed by an optional stored date. -/
def optYear : Option Str → List Str
  | some x => [yearOf x]
  | none => []

/-- Invariants of a successful run of the inner-path classifier on a
token list `toks`, for the pre-`unit` fields and the leftover bag. -/
structure InnerFacts (toks : List Str) (pre : PreDict) (t4 : List Str) : Prop where
  fin_mem : ∀ x, pre.fin = some x → x ∈ ALLOWED_FINALISERS
  rate_mem : ∀ x, pre.rate = some x → x ∈ ALLOWED_REAL_RATES
  agg_mem : ∀ x, pre.agg = some x → x ∈ ALLOWED_AGGREGATORS
  start_shape : pre.start_date = none ∨
    ∃ n, 1 ≤ n ∧ n ≤ 9999 ∧ pre.start_date = some (natToStr n ++ "-01-01".data)
  end_shape : pre.end_date = none ∨
    ∃ n, 1 ≤ n ∧ n ≤ 9999 ∧ pre.end_date = some (natToStr n ++ "-12-31".data)
  end_imp_start : pre.end_date.isSome = true → pre.start_date.isSome = true
  no_conflict : (pyTruthy pre.rate && pyTruthy pre.agg) = false
  t4_sub : ∀ x ∈ t4, x ∈ toks
  fin_stage : ∃ t1 t2, (∀ x ∈ t1, x ∈ toks) ∧
    assign_values t1 ALLOWED_FINALISERS = .ok (pre.fin, t2)

instance decCleanTok (t : Str) : Decidable (cleanTok t) := by
  unfold cleanTok
  infer_instance

instance instDecEqExceptErr {ε α : Type} [DecidableEq ε] [DecidableEq α] :
    DecidableEq (Except ε α)
  | .error e, .error e' =>
    if h : e = e' then .isTrue (by rw [h]) else .isFalse (by simp [h])
  | .error _, .ok _ => .isFalse (by simp)
  | .ok _, .error _ => .isFalse (by simp)
  | .ok a, .ok b =>
    if h : a = b then .isTrue (by rw [h]) else .isFalse (by simp [h])


/-! ### Lemmas on the string machinery -/

theorem dropWhile_pyWs_head {l : Str} {c : Char} {t : Str}
    (h : l.dropWhile pyWs = c :: t) : pyWs c = false := by
  have hh := List.head?_dropWhile_not pyWs l
  rw [h] at hh
  simpa using hh

theorem dropWhile_pyWs_idem (l : Str) :
    (l.dropWhile pyWs).dropWhile pyWs = l.dropWhile pyWs := by
  cases h : l.dropWhile pyWs with
  | nil => simp
  | cons c t => exact List.dropWhile_cons_of_neg (by simp [dropWhile_pyWs_head h])

theorem pyStrip_prefix_dropWhile (s : Str) : pyStrip s <+: s.dropWhile pyWs := by
  have h : (s.dropWhile pyWs).reverse.dropWhile pyWs <:+ (s.dropWhile pyWs).reverse :=
    List.dropWhile_suffix pyWs
  have h2 := List.reverse_prefix.mpr h
  simpa [pyStrip] using h2

theorem pyStrip_idem (s : Str) : pyStrip (pyStrip s) = pyStrip s := by
  have hleft : (pyStrip s).dropWhile pyWs = pyStrip s := by
    obtain ⟨t, ht⟩ := pyStrip_prefix_dropWhile s
    cases hB : pyStrip s with
    | nil => simp
    | cons c bs =>
      rw [hB] at ht
      have hA : s.dropWhile pyWs = c :: (bs ++ t) := by rw [← ht]; rfl
      exact List.dropWhile_cons_of_neg (by simp [dropWhile_pyWs_head hA])
  show (((pyStrip s).dropWhile pyWs).reverse.dropWhile pyWs).reverse = pyStrip s
  rw [hleft]
  have h2 : (pyStrip s).reverse.dropWhile pyWs = (pyStrip s).reverse := by
    have h3 : (pyStrip s).reverse = (s.dropWhile pyWs).reverse.dropWhile pyWs := by
      simp [pyStrip]
    rw [h3]
    exact dropWhile_pyWs_idem _
  rw [h2, List.reverse_reverse]

theorem mem_pyStrip {c : Char} {s : Str} (h : c ∈ pyStrip s) : c ∈ s := by
  unfold pyStrip at h
  rw [List.mem_reverse] at h
  have h2 := List.dropWhile_subset pyWs h
  rw [List.mem_reverse] at h2
  exact List.dropWhile_subset pyWs h2

theorem dropWhile_eq_self_of {p : Char → Bool} {l : Str}
    (h : ∀ c ∈ l, p c = false) : l.dropWhile p = l := by
  cases l with
  | nil => simp
  | cons c t => exact List.dropWhile_cons_of_neg (by simp [h c (List.mem_cons_self c t)])

theorem pyStrip_of_no_ws {s : Str} (h : ∀ c ∈ s, pyWs c = false) : pyStrip s = s := by
  unfold pyStrip
  rw [dropWhile_eq_self_of h]
  rw [dropWhile_eq_self_of (fun c hc => h c (List.mem_reverse.mp hc))]
  exact List.reverse_reverse s

theorem pySplit_ne_nil : ∀ s : Str, pySplit s ≠ []
  | [] => by simp [pySplit]
  | c :: cs => by
    simp only [pySplit]
    split
    · simp
    · split <;> simp

theorem mem_pySplit_no_slash : ∀ {s : Str} {p : Str}, p ∈ pySplit s → '/' ∉ p
  | [], p, h => by
    simp [pySplit] at h
    simp [h]
  | c :: cs, p, h => by
    simp only [pySplit] at h
    by_cases hc : c = '/'
    · rw [if_pos hc] at h
      rcases List.mem_cons.mp h with h1 | h1
      · simp [h1]
      · exact mem_pySplit_no_slash h1
    · rw [if_neg hc] at h
      cases h2 : pySplit cs with
      | nil => exact absurd h2 (pySplit_ne_nil cs)
      | cons t ts =>
        rw [h2] at h
        rcases List.mem_cons.mp h with h1 | h1
        · subst h1
          intro hmem
          rcases List.mem_cons.mp hmem with h3 | h3
          · exact hc h3.symm
          · exact mem_pySplit_no_slash (h2 ▸ List.mem_cons_self t ts) h3
        · exact mem_pySplit_no_slash (h2 ▸ List.mem_cons_of_mem t h1)

theorem pySplit_no_slash {s : Str} (h : '/' ∉ s) : pySplit s = [s] := by
  induction s with
  | nil => rfl
  | cons c cs ih =>
    have hc : ¬(c = '/') := fun hc => h (hc ▸ List.mem_cons_self c cs)
    have hcs : '/' ∉ cs := fun hm => h (List.mem_cons_of_mem c hm)
    simp only [pySplit, if_neg hc, ih hcs]

theorem pySplit_append {x : Str} (r : Str) (h : '/' ∉ x) :
    pySplit (x ++ '/' :: r) = x :: pySplit r := by
  induction x with
  | nil => simp [pySplit]
  | cons c cs ih =>
    have hc : ¬(c = '/') := fun hc => h (hc ▸ List.mem_cons_self c cs)
    have hcs : '/' ∉ cs := fun hm => h (List.mem_cons_of_mem c hm)
    simp only [List.cons_append, pySplit, if_neg hc, List.append_eq]
    rw [ih hcs]

theorem pySplit_joinTok : ∀ {parts : List Str}, parts ≠ [] →
    (∀ p ∈ parts, '/' ∉ p) → pySplit (joinTok parts) = parts
  | [], hne, _ => absurd rfl hne
  | [p], _, h => by
    simp only [joinTok]
    exact pySplit_no_slash (h p (List.mem_cons_self p []))
  | p :: q :: rest, _, h => by
    show pySplit (p ++ '/' :: joinTok (q :: rest)) = _
    rw [pySplit_append _ (h p (List.mem_cons_self p _))]
    rw [pySplit_joinTok (by simp) (fun x hx => h x (List.mem_cons_of_mem p hx))]

theorem map_id_of {f : Str → Str} : ∀ {l : List Str}, (∀ x ∈ l, f x = x) → l.map f = l
  | [], _ => rfl
  | x :: xs, h => by
    rw [List.map_cons, h x (List.mem_cons_self x xs),
      map_id_of (fun y hy => h y (List.mem_cons_of_mem x hy))]

theorem tokenize_joinTok {parts : List Str} (hne : parts ≠ [])
    (hcl : ∀ p ∈ parts, cleanTok p) :
    tokenize (joinTok parts) = parts.filter (fun t => !t.isEmpty) := by
  unfold tokenize
  rw [pySplit_joinTok hne (fun p hp => (hcl p hp).1)]
  exact map_id_of (fun x hx => (hcl x (List.mem_of_mem_filter hx)).2)

theorem tokenize_joinTok_full {parts : List Str} (hne : parts ≠ [])
    (hcl : ∀ p ∈ parts, cleanTok p) (hfull : ∀ p ∈ parts, p ≠ []) :
    tokenize (joinTok parts) = parts := by
  rw [tokenize_joinTok hne hcl]
  exact List.filter_eq_self.mpr (fun a ha => by simpa using hfull a ha)

theorem tokenize_clean {s : Str} : ∀ t ∈ tokenize s, cleanTok t := by
  intro t ht
  unfold tokenize at ht
  obtain ⟨p, hp, hpt⟩ := List.mem_map.mp ht
  have hps : p ∈ pySplit s := List.mem_of_mem_filter hp
  constructor
  · intro hmem
    exact mem_pySplit_no_slash hps (mem_pyStrip (hpt ▸ hmem))
  · rw [← hpt]
    exact pyStrip_idem p

/-! ### Lemmas on decimal printing and reading -/

theorem digitChar_isDigit {d : Nat} (h : d < 10) : (digitChar d).isDigit = true := by
  interval_cases d <;> decide

theorem digitVal_digitChar {d : Nat} (h : d < 10) : digitVal (digitChar d) = d := by
  interval_cases d <;> decide

theorem natToStrAux_digits :
    ∀ (fuel n : Nat), n < fuel → ∀ c ∈ natToStrAux fuel n, c.isDigit = true
  | 0, n, h => absurd h (Nat.not_lt_zero n)
  | fuel + 1, n, h => by
    intro c hc
    simp only [natToStrAux] at hc
    by_cases h10 : n < 10
    · rw [if_pos h10] at hc
      simp only [List.mem_singleton] at hc
      exact hc ▸ digitChar_isDigit h10
    · rw [if_neg h10] at hc
      rcases List.mem_append.mp hc with h1 | h1
      · have hlt : n / 10 < fuel :=
          Nat.lt_of_lt_of_le (Nat.div_lt_self (by omega) (by omega)) (Nat.lt_succ_iff.mp h)
        exact natToStrAux_digits fuel (n / 10) hlt c h1
      · simp only [List.mem_singleton] at h1
        exact h1 ▸ digitChar_isDigit (Nat.mod_lt n (by omega))

theorem natToStr_digits {n : Nat} : ∀ c ∈ natToStr n, c.isDigit = true :=
  natToStrAux_digits (n + 1) n (Nat.lt_succ_self n)

theorem natToStrAux_ne_nil {fuel n : Nat} (h : n < fuel) : natToStrAux fuel n ≠ [] := by
  cases fuel with
  | zero => exact absurd h (Nat.not_lt_zero n)
  | succ f =>
    simp only [natToStrAux]
    split
    · simp
    · simp

theorem natToStr_ne_nil (n : Nat) : natToStr n ≠ [] :=
  natToStrAux_ne_nil (Nat.lt_succ_self n)

theorem strToNatAux_append :
    ∀ (xs : Str) (a : Nat) (ys : Str),
      strToNatAux a (xs ++ ys) = strToNatAux (strToNatAux a xs) ys
  | [], _, _ => rfl
  | c :: t, a, ys => by
    show strToNatAux (10 * a + digitVal c) (t ++ ys)
      = strToNatAux (strToNatAux (10 * a + digitVal c) t) ys
    exact strToNatAux_append t _ ys

theorem strToNat_natToStrAux :
    ∀ (fuel n : Nat), n < fuel → strToNat (natToStrAux fuel n) = n
  | 0, n, h => absurd h (Nat.not_lt_zero n)
  | fuel + 1, n, h => by
    simp only [natToStrAux]
    by_cases h10 : n < 10
    · rw [if_pos h10]
      show strToNatAux (10 * 0 + digitVal (digitChar n)) [] = n
      rw [digitVal_digitChar h10]
      show 10 * 0 + n = n
      omega
    · rw [if_neg h10]
      have hlt : n / 10 < fuel :=
        Nat.lt_of_lt_of_le (Nat.div_lt_self (by omega) (by omega)) (Nat.lt_succ_iff.mp h)
      show strToNatAux 0 (natToStrAux fuel (n / 10) ++ [digitChar (n % 10)]) = n
      rw [strToNatAux_append]
      have hdiv := strToNat_natToStrAux fuel (n / 10) hlt
      unfold strToNat at hdiv
      rw [hdiv]
      show 10 * (n / 10) + digitVal (digitChar (n % 10)) = n
      rw [digitVal_digitChar (Nat.mod_lt n (by omega))]
      omega

theorem strToNat_natToStr (n : Nat) : strToNat (natToStr n) = n :=
  strToNat_natToStrAux (n + 1) n (Nat.lt_succ_self n)

theorem isDigits_natToStr (n : Nat) : isDigits (natToStr n) = true := by
  unfold isDigits
  rw [Bool.and_eq_true]
  constructor
  · cases h : natToStr n with
    | nil => exact absurd h (natToStr_ne_nil n)
    | cons c t => simp
  · rw [List.all_eq_true]
    intro c hc
    exact natToStr_digits c hc

theorem isDigit_not_pyWs {c : Char} (h : c.isDigit = true) : pyWs c = false := by
  cases hw : pyWs c with
  | false => rfl
  | true =>
    unfold pyWs at hw
    simp only [Bool.or_eq_true, decide_eq_true_eq] at hw
    rcases hw with ((((h1 | h1) | h1) | h1) | h1) | h1 <;>
      (subst h1; exact absurd h (by decide))

theorem isDigit_ne_slash {c : Char} (h : c.isDigit = true) : c ≠ '/' := by
  intro hc
  subst hc
  exact absurd h (by decide)

theorem isDigit_ne_dash {c : Char} (h : c.isDigit = true) : c ≠ '-' := by
  intro hc
  subst hc
  exact absurd h (by decide)

theorem cleanTok_natToStr (n : Nat) : cleanTok (natToStr n) := by
  constructor
  · intro hmem
    exact absurd (natToStr_digits _ hmem) (by decide)
  · exact pyStrip_of_no_ws (fun c hc => isDigit_not_pyWs (natToStr_digits c hc))

theorem yearOf_dateStr (n : Nat) (rest : Str) :
    yearOf (natToStr n ++ '-' :: rest) = natToStr n := by
  unfold yearOf
  rw [List.takeWhile_append_of_pos
    (fun c hc => by simp [isDigit_ne_dash (natToStr_digits c hc)])]
  simp

/-! ### Lemmas on `eraseFirst` -/

theorem mem_eraseFirst {x y : Str} : ∀ {l : List Str}, y ∈ eraseFirst l x → y ∈ l
  | [], h => by simp [eraseFirst] at h
  | t :: ts, h => by
    simp only [eraseFirst] at h
    by_cases ht : t = x
    · rw [if_pos ht] at h
      exact List.mem_cons_of_mem t h
    · rw [if_neg ht] at h
      rcases List.mem_cons.mp h with h1 | h1
      · exact h1 ▸ List.mem_cons_self t ts
      · exact List.mem_cons_of_mem t (mem_eraseFirst h1)

theorem eraseFirst_append_not_mem {y : Str} :
    ∀ {pre : List Str} (post : List Str), y ∉ pre →
      eraseFirst (pre ++ y :: post) y = pre ++ post
  | [], post, _ => by simp [eraseFirst]
  | t :: ts, post, h => by
    have ht : ¬(t = y) := fun he => h (he ▸ List.mem_cons_self t ts)
    simp only [List.cons_append, eraseFirst, if_neg ht, List.append_eq]
    rw [eraseFirst_append_not_mem post (fun hm => h (List.mem_cons_of_mem t hm))]

/-! ### Inversion lemmas for the parsing stages -/

theorem as_date_none (m d : Nat) : as_date none m d = .ok none := rfl

theorem as_date_start_shape {sy sd : Option Str} (h : as_date sy 1 1 = .ok sd) :
    sd = none ∨ ∃ n, 1 ≤ n ∧ n ≤ 9999 ∧ sd = some (natToStr n ++ "-01-01".data) := by
  cases sy with
  | none =>
    rw [as_date_none] at h
    exact Or.inl (Except.ok.inj h).symm
  | some y =>
    simp only [as_date] at h
    split at h
    · rename_i hr
      refine Or.inr ⟨strToNat y, hr.1, hr.2, ?_⟩
      rw [← Except.ok.inj h]
      rfl
    · exact absurd h (by simp)

theorem as_date_end_shape {ey ed : Option Str} (h : as_date ey 12 31 = .ok ed) :
    ed = none ∨ ∃ n, 1 ≤ n ∧ n ≤ 9999 ∧ ed = some (natToStr n ++ "-12-31".data) := by
  cases ey with
  | none =>
    rw [as_date_none] at h
    exact Or.inl (Except.ok.inj h).symm
  | some y =>
    simp only [as_date] at h
    split at h
    · rename_i hr
      refine Or.inr ⟨strToNat y, hr.1, hr.2, ?_⟩
      rw [← Except.ok.inj h]
      rfl
    · exact absurd h (by simp)

theorem as_date_some_shape {y : Str} {m d : Nat} {r : Option Str}
    (h : as_date (some y) m d = .ok r) : ∃ s, r = some s := by
  simp only [as_date] at h
  split at h
  · exact ⟨_, (Except.ok.inj h).symm⟩
  · exact absurd h (by simp)

theorem as_date_start_eval {n : Nat} (h1 : 1 ≤ n) (h2 : n ≤ 9999) :
    as_date (some (natToStr n)) 1 1 = .ok (some (natToStr n ++ "-01-01".data)) := by
  simp only [as_date]
  rw [strToNat_natToStr]
  rw [if_pos ⟨h1, h2⟩]
  rfl

theorem as_date_end_eval {n : Nat} (h1 : 1 ≤ n) (h2 : n ≤ 9999) :
    as_date (some (natToStr n)) 12 31 = .ok (some (natToStr n ++ "-12-31".data)) := by
  simp only [as_date]
  rw [strToNat_natToStr]
  rw [if_pos ⟨h1, h2⟩]
  rfl

theorem get_years_cases {toks : List Str} {sy ey : Option Str} {t1 : List Str}
    (h : get_years toks = ((sy, ey), t1)) :
    (sy = none ∧ ey = none ∧ t1 = toks) ∨
    (∃ s, toks.filter isDigits = [s] ∧ sy = some s ∧ ey = none ∧
      t1 = eraseFirst toks s) ∨
    (∃ s e, toks.filter isDigits = [s, e] ∧ sy = some s ∧ ey = some e ∧
      t1 = eraseFirst (eraseFirst toks s) e) := by
  unfold get_years at h
  rcases hf : toks.filter isDigits with _ | ⟨s, _ | ⟨e, rest⟩⟩
  · rw [hf] at h
    simp at h
    exact Or.inl ⟨h.1.1.symm, h.1.2.symm, h.2.symm⟩
  · rw [hf] at h
    simp at h
    exact Or.inr (Or.inl ⟨s, rfl, h.1.1.symm, h.1.2.symm, h.2.symm⟩)
  · rw [hf] at h
    cases rest with
    | nil =>
      simp at h
      exact Or.inr (Or.inr ⟨s, e, rfl, h.1.1.symm, h.1.2.symm, h.2.symm⟩)
    | cons r rs =>
      simp at h
      exact Or.inl ⟨h.1.1.symm, h.1.2.symm, h.2.symm⟩

theorem assign_values_shape {toks allowed : List Str} {o : Option Str} {t' : List Str}
    (h : assign_values toks allowed = .ok (o, t')) :
    (o = none ∧ t' = toks) ∨
    ∃ x, o = some x ∧ x ∈ allowed ∧ x ∈ toks ∧ t' = eraseFirst toks x := by
  unfold assign_values at h
  rcases hf : allowed.filter (fun p => decide (p ∈ toks)) with _ | ⟨x, _ | ⟨y, rest⟩⟩
  · rw [hf] at h
    simp at h
    exact Or.inl ⟨h.1.symm, h.2.symm⟩
  · rw [hf] at h
    simp only [Except.ok.injEq, Prod.mk.injEq] at h
    have hx : x ∈ allowed.filter (fun p => decide (p ∈ toks)) := by
      rw [hf]; exact List.mem_cons_self x []
    have := List.mem_filter.mp hx
    exact Or.inr ⟨x, h.1.symm, this.1, by simpa using this.2, h.2.symm⟩
  · rw [hf] at h
    simp at h

theorem assign_dates_shape {toks : List Str} {sd ed : Option Str} {t1 : List Str}
    (h : assign_dates toks = .ok ((sd, ed), t1)) :
    (sd = none ∨ ∃ n, 1 ≤ n ∧ n ≤ 9999 ∧ sd = some (natToStr n ++ "-01-01".data)) ∧
    (ed = none ∨ ∃ n, 1 ≤ n ∧ n ≤ 9999 ∧ ed = some (natToStr n ++ "-12-31".data)) ∧
    (ed.isSome = true → sd.isSome = true) ∧ (∀ x ∈ t1, x ∈ toks) := by
  unfold assign_dates at h
  rcases hgy : get_years toks with ⟨⟨sy, ey⟩, t1'⟩
  rw [hgy] at h
  dsimp only at h
  rcases hs : as_date sy 1 1 with e | sd'
  · rw [hs] at h; exact absurd h (by simp)
  rw [hs] at h
  rcases he : as_date ey 12 31 with e | ed'
  · rw [he] at h; exact absurd h (by simp)
  rw [he] at h
  simp only [Except.ok.injEq, Prod.mk.injEq] at h
  obtain ⟨⟨hsd, hed⟩, ht1⟩ := h
  subst hsd; subst hed; subst ht1
  refine ⟨as_date_start_shape hs, as_date_end_shape he, ?_, ?_⟩
  · intro hsome
    rcases get_years_cases hgy with ⟨h1, h2, _⟩ | ⟨s, _, h1, h2, _⟩ | ⟨s, e, _, h1, h2, _⟩
    · subst h1; subst h2
      rw [as_date_none] at he
      rw [← Except.ok.inj he] at hsome
      simp at hsome
    · subst h1; subst h2
      rw [as_date_none] at he
      rw [← Except.ok.inj he] at hsome
      simp at hsome
    · subst h1
      obtain ⟨s', hs'⟩ := as_date_some_shape hs
      rw [hs']
      simp
  · intro x hx
    rcases get_years_cases hgy with ⟨_, _, h3⟩ | ⟨s, _, _, _, h3⟩ | ⟨s, e, _, _, _, h3⟩
    · exact h3 ▸ hx
    · exact mem_eraseFirst (h3 ▸ hx)
    · exact mem_eraseFirst (mem_eraseFirst (h3 ▸ hx))

theorem innerCoreToks_facts {toks : List Str} {pre : PreDict} {t4 : List Str}
    (h : innerCoreToks toks = .ok (pre, t4)) : InnerFacts toks pre t4 := by
  unfold innerCoreToks at h
  rcases had : assign_dates toks with e | ⟨⟨sd, ed⟩, t1⟩
  · rw [had] at h; exact absurd h (by simp)
  rw [had] at h
  dsimp only at h
  rcases hfin : assign_values t1 ALLOWED_FINALISERS with e | ⟨fin, t2⟩
  · rw [hfin] at h; exact absurd h (by simp)
  rw [hfin] at h
  dsimp only at h
  rcases hrate : assign_values t2 ALLOWED_REAL_RATES with e | ⟨rate, t3⟩
  · rw [hrate] at h; exact absurd h (by simp)
  rw [hrate] at h
  dsimp only at h
  rcases hagg : assign_values t3 ALLOWED_AGGREGATORS with e | ⟨agg, t4'⟩
  · rw [hagg] at h; exact absurd h (by simp)
  rw [hagg] at h
  dsimp only at h
  split at h
  · exact absurd h (by simp)
  rename_i hcf
  simp only [Except.ok.injEq, Prod.mk.injEq] at h
  obtain ⟨hpre, ht4⟩ := h
  subst hpre; subst ht4
  obtain ⟨hsd, hed, hes, ht1⟩ := assign_dates_shape had
  have hsub2 : ∀ x ∈ t2, x ∈ t1 := by
    rcases assign_values_shape hfin with ⟨_, h3⟩ | ⟨x, _, _, _, h3⟩
    · exact fun x hx => h3 ▸ hx
    · exact fun y hy => mem_eraseFirst (h3 ▸ hy)
  have hsub3 : ∀ x ∈ t3, x ∈ t2 := by
    rcases assign_values_shape hrate with ⟨_, h3⟩ | ⟨x, _, _, _, h3⟩
    · exact fun x hx => h3 ▸ hx
    · exact fun y hy => mem_eraseFirst (h3 ▸ hy)
  have hsub4 : ∀ x ∈ t4', x ∈ t3 := by
    rcases assign_values_shape hagg with ⟨_, h3⟩ | ⟨x, _, _, _, h3⟩
    · exact fun x hx => h3 ▸ hx
    · exact fun y hy => mem_eraseFirst (h3 ▸ hy)
  refine ⟨?_, ?_, ?_, hsd, hed, hes, by simpa using hcf, ?_, ⟨t1, t2, ht1, hfin⟩⟩
  · intro x hx
    rcases assign_values_shape hfin with ⟨h1, _⟩ | ⟨x', h1, h2, _, _⟩
    · simp [h1] at hx
    · rw [h1] at hx
      exact (Option.some.inj hx) ▸ h2
  · intro x hx
    rcases assign_values_shape hrate with ⟨h1, _⟩ | ⟨x', h1, h2, _, _⟩
    · simp [h1] at hx
    · rw [h1] at hx
      exact (Option.some.inj hx) ▸ h2
  · intro x hx
    rcases assign_values_shape hagg with ⟨h1, _⟩ | ⟨x', h1, h2, _, _⟩
    · simp [h1] at hx
    · rw [h1] at hx
      exact (Option.some.inj hx) ▸ h2
  · exact fun x hx => ht1 x (hsub2 x (hsub3 x (hsub4 x hx)))

theorem get_freq_ok {f g : Str} (h : get_freq f = .ok g) :
    g = f ∧ get_freq f = .ok f := by
  unfold get_freq at h ⊢
  split at h
  · rename_i hc
    exact ⟨(Except.ok.inj h).symm, by rw [if_pos hc]⟩
  · exact absurd h (by simp)

/-- Shape of every successful result of `mimic_custom_api`: clean fixed
tokens with a valid frequency, and either the bare three-key dict or the
three keys followed by the inner-path dict of a classified token bag. -/
theorem mimic_shape {path : Str} {ctx : Ctx} (h : mimic_custom_api path = .ok ctx) :
    ∃ dm v f, cleanTok dm ∧ cleanTok v ∧ cleanTok f ∧ get_freq f = .ok f ∧
      (ctx = baseCtx dm v f ∨
        ∃ pre t4,
          InnerFacts (((tokenize path).drop 5).filter (fun t => !t.isEmpty)) pre t4 ∧
          (∀ x ∈ t4, x ≠ []) ∧
          ctx = baseCtx dm v f ++ innerPairs (finalizeInner pre t4)) := by
  unfold mimic_custom_api at h
  split at h
  case isFalse => exact absurd h (by simp)
  rcases h1 : (tokenize path).get? 1 with _ | dm
  · rw [h1] at h; exact absurd h (by simp)
  rw [h1] at h
  dsimp only at h
  rcases h3 : (tokenize path).get? 3 with _ | v
  · rw [h3] at h; exact absurd h (by simp)
  rw [h3] at h
  dsimp only at h
  rcases h4 : (tokenize path).get? 4 with _ | f
  · rw [h4] at h; exact absurd h (by simp)
  rw [h4] at h
  dsimp only at h
  rcases hfq : get_freq f with e | fq
  · rw [hfq] at h; exact absurd h (by simp)
  rw [hfq] at h
  dsimp only at h
  obtain ⟨hfqf, hfok⟩ := get_freq_ok hfq
  subst hfqf
  refine ⟨dm, v, fq, tokenize_clean dm (List.get?_mem h1),
    tokenize_clean v (List.get?_mem h3), tokenize_clean fq (List.get?_mem h4), hfok, ?_⟩
  split at h
  · rename_i hlen
    rcases hip : InnerPath (joinTok ((tokenize path).drop 5)) with e | d
    · rw [hip] at h; exact absurd h (by simp)
    rw [hip] at h
    unfold InnerPath at hip
    have hdrop : ∀ p ∈ (tokenize path).drop 5, cleanTok p :=
      fun p hp => tokenize_clean p (List.drop_subset 5 (tokenize path) hp)
    have hne : (tokenize path).drop 5 ≠ [] := by
      intro hnil
      have := List.length_drop 5 (tokenize path)
      rw [hnil] at this
      simp at this
      omega
    rw [tokenize_joinTok hne hdrop] at hip
    rcases hic : innerCoreToks (((tokenize path).drop 5).filter (fun t => !t.isEmpty))
      with e | ⟨pre, t4⟩
    · rw [hic] at hip; exact absurd hip (by simp)
    rw [hic] at hip
    have hd : d = finalizeInner pre t4 := (Except.ok.inj hip).symm
    refine Or.inr ⟨pre, t4, innerCoreToks_facts hic, ?_, by rw [← Except.ok.inj h, hd]⟩
    intro x hx
    have hmem := (innerCoreToks_facts hic).t4_sub x hx
    have := List.of_mem_filter hmem
    simpa using this
  · exact Or.inl (Except.ok.inj h).symm

/-! ### Evaluation of key lookups on the two context shapes -/

theorem valOf_base_domain (dm v f : Str) :
    valOf (baseCtx dm v f) kDomain = some (some dm) := rfl
theorem valOf_base_varname (dm v f : Str) :
    valOf (baseCtx dm v f) kVarname = some (some v) := rfl
theorem valOf_base_freq (dm v f : Str) :
    valOf (baseCtx dm v f) kFreq = some (some f) := rfl
theorem valOf_base_start (dm v f : Str) : valOf (baseCtx dm v f) kStart = none := rfl
theorem valOf_base_end (dm v f : Str) : valOf (baseCtx dm v f) kEnd = none := rfl
theorem valOf_base_fin (dm v f : Str) : valOf (baseCtx dm v f) kFin = none := rfl
theorem valOf_base_rate (dm v f : Str) : valOf (baseCtx dm v f) kRate = none := rfl
theorem valOf_base_agg (dm v f : Str) : valOf (baseCtx dm v f) kAgg = none := rfl
theorem valOf_base_unit (dm v f : Str) : valOf (baseCtx dm v f) kUnit = none := rfl

theorem valOf_full_domain (dm v f : Str) (d : InnerDict) :
    valOf (baseCtx dm v f ++ innerPairs d) kDomain = some (some dm) := rfl
theorem valOf_full_varname (dm v f : Str) (d : InnerDict) :
    valOf (baseCtx dm v f ++ innerPairs d) kVarname = some (some v) := rfl
theorem valOf_full_freq (dm v f : Str) (d : InnerDict) :
    valOf (baseCtx dm v f ++ innerPairs d) kFreq = some (some f) := rfl
theorem valOf_full_start (dm v f : Str) (d : InnerDict) :
    valOf (baseCtx dm v f ++ innerPairs d) kStart = some d.start_date := rfl
theorem valOf_full_end (dm v f : Str) (d : InnerDict) :
    valOf (baseCtx dm v f ++ innerPairs d) kEnd = some d.end_date := rfl
theorem valOf_full_fin (dm v f : Str) (d : InnerDict) :
    valOf (baseCtx dm v f ++ innerPairs d) kFin = some d.fin := rfl
theorem valOf_full_rate (dm v f : Str) (d : InnerDict) :
    valOf (baseCtx dm v f ++ innerPairs d) kRate = some d.rate := rfl
theorem valOf_full_agg (dm v f : Str) (d : InnerDict) :
    valOf (baseCtx dm v f ++ innerPairs d) kAgg = some d.agg := rfl
theorem valOf_full_unit (dm v f : Str) (d : InnerDict) :
    valOf (baseCtx dm v f ++ innerPairs d) kUnit = some d.unit := rfl

theorem finalizeInner_start (pre : PreDict) (t4 : List Str) :
    (finalizeInner pre t4).start_date = pre.start_date := by cases t4 <;> rfl
theorem finalizeInner_end (pre : PreDict) (t4 : List Str) :
    (finalizeInner pre t4).end_date = pre.end_date := by cases t4 <;> rfl
theorem finalizeInner_fin (pre : PreDict) (t4 : List Str) :
    (finalizeInner pre t4).fin = pre.fin := by cases t4 <;> rfl
theorem finalizeInner_rate (pre : PreDict) (t4 : List Str) :
    (finalizeInner pre t4).rate = pre.rate := by cases t4 <;> rfl
theorem finalizeInner_agg (pre : PreDict) (t4 : List Str) :
    (finalizeInner pre t4).agg = pre.agg := by cases t4 <;> rfl

/-! ### Small helpers for the claim theorems -/

theorem pyTruthy_some_ne {x : Str} (h : x ≠ []) : pyTruthy (some x) = true := by
  cases x with
  | nil => exact absurd rfl h
  | cons c t => rfl

theorem rates_ne_nil : ∀ x ∈ ALLOWED_REAL_RATES, x ≠ [] := by decide

theorem aggs_ne_nil : ∀ x ∈ ALLOWED_AGGREGATORS, x ≠ [] := by decide

theorem fins_ne_nil : ∀ x ∈ ALLOWED_FINALISERS, x ≠ [] := by decide

theorem append_ne_nil_left {a b : Str} (h : a ≠ []) : a ++ b ≠ [] := by
  intro hab
  exact h (List.append_eq_nil.mp hab).1

theorem filter_eq_singleton_of {p : Str → Bool} :
    ∀ {l : List Str} {x : Str}, l.Nodup → x ∈ l → p x = true →
      (∀ y ∈ l, p y = true → y = x) → l.filter p = [x]
  | [], x, _, hx, _, _ => absurd hx (by simp)
  | a :: t, x, hnd, hx, hpx, huniq => by
    have hnmem : a ∉ t := (List.nodup_cons.mp hnd).1
    rcases List.mem_cons.mp hx with heq | hxt
    · rw [List.filter_cons_of_pos (heq ▸ hpx)]
      have ht : t.filter p = [] := by
        rw [List.filter_eq_nil_iff]
        intro y hy hpy
        have hyx := huniq y (List.mem_cons_of_mem a hy) hpy
        rw [hyx, heq] at hy
        exact hnmem hy
      rw [ht, heq]
    · have hax : ¬(p a = true) := by
        intro hpa
        have hxa := huniq a (List.mem_cons_self a t) hpa
        exact hnmem (hxa ▸ hxt)
      rw [List.filter_cons_of_neg hax]
      exact filter_eq_singleton_of (List.nodup_cons.mp hnd).2 hxt hpx
        (fun y hy hpy => huniq y (List.mem_cons_of_mem a hy) hpy)

/-- Every `unit` value of a successful decomposition is a non-empty string. -/
theorem mimic_unit_ne_nil {path : Str} {ctx : Ctx}
    (h : mimic_custom_api path = .ok ctx) :
    ∀ u, valOf ctx kUnit = some (some u) → u ≠ [] := by
  intro u hu
  rcases mimic_shape h with ⟨dm, v, f, _, _, _, _, hbase | ⟨pre, t4, hfacts, ht4ne, hfull⟩⟩
  · rw [hbase, valOf_base_unit] at hu
    exact absurd hu (by simp)
  · rw [hfull, valOf_full_unit] at hu
    have hu2 := Option.some.inj hu
    cases ht4 : t4 with
    | cons u' rest =>
      rw [ht4] at hu2
      have : some u' = some u := hu2
      exact (Option.some.inj this) ▸ ht4ne u' (ht4 ▸ List.mem_cons_self u' rest)
    | nil =>
      rw [ht4] at hu2
      simp only [finalizeInner] at hu2
      split at hu2
      · rename_i htr
        cases hrate : pre.rate with
        | none => rw [hrate] at hu2; exact absurd hu2 (by simp)
        | some r =>
          rw [hrate] at hu2
          have hr := hfacts.rate_mem r hrate
          exact (Option.some.inj hu2) ▸ rates_ne_nil r hr
      · exact absurd hu2 (by simp)

/-- Every `start_date` value of a successful decomposition is non-empty. -/
theorem mimic_start_ne_nil {path : Str} {ctx : Ctx}
    (h : mimic_custom_api path = .ok ctx) :
    ∀ s, valOf ctx kStart = some (some s) → s ≠ [] := by
  intro s hs
  rcases mimic_shape h with ⟨dm, v, f, _, _, _, _, hbase | ⟨pre, t4, hfacts, _, hfull⟩⟩
  · rw [hbase, valOf_base_start] at hs
    exact absurd hs (by simp)
  · rw [hfull, valOf_full_start, finalizeInner_start] at hs
    have hs2 := Option.some.inj hs
    rcases hfacts.start_shape with h1 | ⟨n, _, _, h1⟩
    · rw [h1] at hs2; exact absurd hs2 (by simp)
    · rw [h1] at hs2
      exact (Option.some.inj hs2) ▸ append_ne_nil_left (natToStr_ne_nil n)

/-- Every `end_date` value of a successful decomposition is non-empty. -/
theorem mimic_end_ne_nil {path : Str} {ctx : Ctx}
    (h : mimic_custom_api path = .ok ctx) :
    ∀ s, valOf ctx kEnd = some (some s) → s ≠ [] := by
  intro s hs
  rcases mimic_shape h with ⟨dm, v, f, _, _, _, _, hbase | ⟨pre, t4, hfacts, _, hfull⟩⟩
  · rw [hbase, valOf_base_end] at hs
    exact absurd hs (by simp)
  · rw [hfull, valOf_full_end, finalizeInner_end] at hs
    have hs2 := Option.some.inj hs
    rcases hfacts.end_shape with h1 | ⟨n, _, _, h1⟩
    · rw [h1] at hs2; exact absurd hs2 (by simp)
    · rw [h1] at hs2
      exact (Option.some.inj hs2) ▸ append_ne_nil_left (natToStr_ne_nil n)

/-! ### Claim theorems -/

/-- C1: decomposing "api/oil/series/BRENT/m/eop/2015/2017/csv" yields
domain=oil, varname=BRENT, freq=m, agg=eop, rate absent (None),
fin=csv, start_date=2015-01-01 and end_date=2017-12-31. -/
theorem c1_decompose_brent_example :
    mimic_custom_api ("api/oil/series/BRENT/m/eop/2015/2017/csv".data) =
      .ok [(kDomain, some ("oil".data)), (kVarname, some ("BRENT".data)),
           (kFreq, some ("m".data)), (kStart, some ("2015-01-01".data)),
           (kEnd, some ("2017-12-31".data)), (kFin, some ("csv".data)),
           (kRate, none), (kAgg, some ("eop".data)), (kUnit, none)] := by rfl

/-- C2 counterexample: the inner path of
"api/oil/series/BRENT/q/rog/yoy/eop" contains a rate token (rog) and an
aggregation token (eop), yet decompose fails with the AmbiguousSuffix
error ValueError(['rog', 'yoy']) — not with ConflictingSuffix. -/
theorem c2_counterexample :
    mimic_custom_api ("api/oil/series/BRENT/q/rog/yoy/eop".data) =
      .error (.ambiguousSuffix ["rog".data, "yoy".data]) ∧
    mimic_custom_api ("api/oil/series/BRENT/q/rog/yoy/eop".data) ≠
      .error .conflictingSuffix := by
  exact ⟨rfl, by decide⟩

/-- C2 amended: a PathQuery returned by decompose never has both rate
and agg set (both keys non-None), and the quoted example with exactly
one rate and one aggregation token fails with ConflictingSuffix; inputs
carrying several distinct values of one vocabulary fail earlier with
AmbiguousSuffix. -/
theorem c2_rate_agg_exclusive :
    (∀ path ctx, mimic_custom_api path = .ok ctx →
      ¬∃ r a, valOf ctx kRate = some (some r) ∧ valOf ctx kAgg = some (some a)) ∧
    mimic_custom_api ("api/oil/series/BRENT/q/rog/eop".data) =
      .error .conflictingSuffix := by
  constructor
  · intro path ctx h hc
    obtain ⟨r, a, hr, ha⟩ := hc
    rcases mimic_shape h with ⟨dm, v, f, _, _, _, _, hbase | ⟨pre, t4, hfacts, _, hfull⟩⟩
    · rw [hbase, valOf_base_rate] at hr
      exact absurd hr (by simp)
    · rw [hfull, valOf_full_rate, finalizeInner_rate] at hr
      rw [hfull, valOf_full_agg, finalizeInner_agg] at ha
      have hr2 : pre.rate = some r := Option.some.inj hr
      have ha2 : pre.agg = some a := Option.some.inj ha
      have hcon := hfacts.no_conflict
      rw [hr2, ha2, pyTruthy_some_ne (rates_ne_nil r (hfacts.rate_mem r hr2)),
        pyTruthy_some_ne (aggs_ne_nil a (hfacts.agg_mem a ha2))] at hcon
      exact absurd hcon (by simp)
  · rfl

/-- C2 witness: the invariant instantiated at a successful decomposition
carrying an aggregation suffix. -/
theorem c2_rate_agg_exclusive_witness :
    ¬∃ r a,
      valOf [(kDomain, some ("oil".data)), (kVarname, some ("URALS".data)),
             (kFreq, some ("m".data)), (kStart, none), (kEnd, none), (kFin, none),
             (kRate, none), (kAgg, some ("eop".data)), (kUnit, none)]
        kRate = some (some r) ∧
      valOf [(kDomain, some ("oil".data)), (kVarname, some ("URALS".data)),
             (kFreq, some ("m".data)), (kStart, none), (kEnd, none), (kFin, none),
             (kRate, none), (kAgg, some ("eop".data)), (kUnit, none)]
        kAgg = some (some a) :=
  c2_rate_agg_exclusive.1 ("api/oil/series/URALS/m/eop".data) _ rfl

/-- C3: the claim is right and the code is wrong — the frequency check
`freq not in 'dwmqa'` is a Python substring test, so the two-character
token "wm" is accepted (and decompose returns freq="wm") while the five
single characters are accepted and "z" is rejected as the spec says. -/
theorem c3_freq_substring_code_bug :
    get_freq ("wm".data) = .ok ("wm".data) ∧
    mimic_custom_api ("api/oil/series/BRENT/wm/csv".data) =
      .ok [(kDomain, some ("oil".data)), (kVarname, some ("BRENT".data)),
           (kFreq, some ("wm".data)), (kStart, none), (kEnd, none),
           (kFin, some ("csv".data)), (kRate, none), (kAgg, none), (kUnit, none)] ∧
    get_freq ("d".data) = .ok ("d".data) ∧
    get_freq ("w".data) = .ok ("w".data) ∧
    get_freq ("m".data) = .ok ("m".data) ∧
    get_freq ("q".data) = .ok ("q".data) ∧
    get_freq ("a".data) = .ok ("a".data) ∧
    get_freq ("z".data) = .error (.invalidFrequency ("z".data)) :=
  ⟨rfl, rfl, rfl, rfl, rfl, rfl, rfl, rfl⟩

/-- C4 counterexample: the inner path "csv/csv" holds two tokens of the
finaliser vocabulary, yet decompose succeeds — the first csv becomes fin
and the leftover duplicate becomes the unit — instead of failing with
AmbiguousSuffix. -/
theorem c4_counterexample :
    mimic_custom_api ("api/ru/series/VV/m/csv/csv".data) =
      .ok [(kDomain, some ("ru".data)), (kVarname, some ("VV".data)),
           (kFreq, some ("m".data)), (kStart, none), (kEnd, none),
           (kFin, some ("csv".data)), (kRate, none), (kAgg, none),
           (kUnit, some ("csv".data))] := by rfl

/-- C4 amended: suffix extraction counts distinct vocabulary values, not
matching tokens: no value present → None and the bag unchanged; exactly
one distinct value present (even as several duplicate tokens) → it is
assigned and its first occurrence removed; two or more distinct values
present → AmbiguousSuffix. -/
theorem c4_assign_values_distinct_values (tokens allowed : List Str)
    (hnd : allowed.Nodup) :
    ((∀ x ∈ allowed, x ∉ tokens) → assign_values tokens allowed = .ok (none, tokens)) ∧
    (∀ x, x ∈ allowed → x ∈ tokens → (∀ y ∈ allowed, y ∈ tokens → y = x) →
      assign_values tokens allowed = .ok (some x, eraseFirst tokens x)) ∧
    (∀ x y, x ∈ allowed → y ∈ allowed → x ∈ tokens → y ∈ tokens → x ≠ y →
      ∃ found, assign_values tokens allowed = .error (.ambiguousSuffix found) ∧
        2 ≤ found.length) := by
  refine ⟨?_, ?_, ?_⟩
  · intro hnone
    have hf : allowed.filter (fun p => decide (p ∈ tokens)) = [] := by
      rw [List.filter_eq_nil_iff]
      intro y hy
      simp [hnone y hy]
    unfold assign_values
    rw [hf]
  · intro x hxa hxt huniq
    have hf : allowed.filter (fun p => decide (p ∈ tokens)) = [x] :=
      filter_eq_singleton_of hnd hxa (by simpa using hxt)
        (fun y hy hpy => huniq y hy (by simpa using hpy))
    unfold assign_values
    rw [hf]
  · intro x y hxa hya hxt hyt hxy
    have hxf : x ∈ allowed.filter (fun p => decide (p ∈ tokens)) :=
      List.mem_filter.mpr ⟨hxa, by simpa using hxt⟩
    have hyf : y ∈ allowed.filter (fun p => decide (p ∈ tokens)) :=
      List.mem_filter.mpr ⟨hya, by simpa using hyt⟩
    rcases hf : allowed.filter (fun p => decide (p ∈ tokens)) with _ | ⟨z, _ | ⟨w, rest⟩⟩
    · rw [hf] at hxf; exact absurd hxf (by simp)
    · rw [hf] at hxf hyf
      have hx' := List.mem_singleton.mp hxf
      have hy' := List.mem_singleton.mp hyf
      exact absurd (hx'.trans hy'.symm) hxy
    · refine ⟨z :: w :: rest, ?_, by simp⟩
      unfold assign_values
      rw [hf]

/-- C4 witness: a duplicated single vocabulary value is assigned, with
one occurrence left in the bag. -/
theorem c4_assign_values_distinct_values_witness :
    assign_values (["csv".data, "csv".data]) ALLOWED_FINALISERS =
      .ok (some ("csv".data), ["csv".data]) :=
  (c4_assign_values_distinct_values (["csv".data, "csv".data]) ALLOWED_FINALISERS
    (by decide)).2.1 ("csv".data) (by decide) (by decide) (by decide)

/-- C5 counterexample: the inner path "0" consists of one all-digit
token, but decompose raises the date constructor's ValueError (year 0 is
out of range) instead of returning start_date = 0000-01-01. -/
theorem c5_counterexample :
    mimic_custom_api ("api/ru/series/XX/m/0".data) = .error (.yearOutOfRange 0) := by
  rfl

/-- C5 amended: with no all-digit token both dates stay absent and the
bag is untouched; with one or two all-digit tokens denoting years in the
calendar range (here 1000..9999, so the rendered year is four digits)
the first becomes start_date = YYYY-01-01 and the second (if any)
end_date = YYYY-12-31, and the year tokens are removed from the bag;
out-of-range years such as 0 make decompose fail instead. -/
theorem c5_assign_dates_years (tokens : List Str) (s e : Str) :
    (tokens.filter isDigits = [] → assign_dates tokens = .ok ((none, none), tokens)) ∧
    (tokens.filter isDigits = [s] → 1000 ≤ strToNat s → strToNat s ≤ 9999 →
      assign_dates tokens =
        .ok ((some (natToStr (strToNat s) ++ "-01-01".data), none),
             eraseFirst tokens s)) ∧
    (tokens.filter isDigits = [s, e] →
      1000 ≤ strToNat s → strToNat s ≤ 9999 →
      1000 ≤ strToNat e → strToNat e ≤ 9999 →
      assign_dates tokens =
        .ok ((some (natToStr (strToNat s) ++ "-01-01".data),
              some (natToStr (strToNat e) ++ "-12-31".data)),
             eraseFirst (eraseFirst tokens s) e)) := by
  refine ⟨?_, ?_, ?_⟩
  · intro hf
    have hgy : get_years tokens = ((none, none), tokens) := by
      unfold get_years
      rw [hf]
    unfold assign_dates
    rw [hgy]
    rfl
  · intro hf h1 h2
    have hgy : get_years tokens = ((some s, none), eraseFirst tokens s) := by
      unfold get_years
      rw [hf]
    unfold assign_dates
    rw [hgy]
    dsimp only
    simp only [as_date]
    rw [if_pos ⟨by omega, h2⟩]
    rfl
  · intro hf h1 h2 h3 h4
    have hgy : get_years tokens =
        ((some s, some e), eraseFirst (eraseFirst tokens s) e) := by
      unfold get_years
      rw [hf]
    unfold assign_dates
    rw [hgy]
    dsimp only
    simp only [as_date]
    rw [if_pos ⟨by omega, h2⟩, if_pos ⟨by omega, h4⟩]
    rfl

/-- C5 witness: one year token among the inner tokens. -/
theorem c5_assign_dates_years_witness :
    assign_dates (["2015".data, "csv".data]) =
      .ok ((some (natToStr (strToNat ("2015".data)) ++ "-01-01".data), none),
           eraseFirst (["2015".data, "csv".data]) ("2015".data)) :=
  (c5_assign_dates_years (["2015".data, "csv".data]) ("2015".data) ("1".data)).2.1
    rfl (by decide) (by decide)

/-- C6: a leftover inner-path token (the first one) becomes the unit;
with no leftover, unit falls back to the matched rate and is absent
otherwise; "api/ru/series/EXPORT_GOODS/m/bln_rub" yields unit=bln_rub
with all other optional fields None. -/
theorem c6_unit_assignment :
    (∀ s pre t4 u rest, innerCoreToks (tokenize s) = .ok (pre, t4) →
      t4 = u :: rest →
      InnerPath s = .ok ⟨pre.start_date, pre.end_date, pre.fin, pre.rate,
        pre.agg, some u⟩) ∧
    (∀ s pre, innerCoreToks (tokenize s) = .ok (pre, []) → pre.rate = none →
      InnerPath s = .ok ⟨pre.start_date, pre.end_date, pre.fin, pre.rate,
        pre.agg, none⟩) ∧
    (∀ s pre r, innerCoreToks (tokenize s) = .ok (pre, []) → pre.rate = some r →
      r ∈ ALLOWED_REAL_RATES →
      InnerPath s = .ok ⟨pre.start_date, pre.end_date, pre.fin, pre.rate,
        pre.agg, some r⟩) ∧
    mimic_custom_api ("api/ru/series/EXPORT_GOODS/m/bln_rub".data) =
      .ok [(kDomain, some ("ru".data)), (kVarname, some ("EXPORT_GOODS".data)),
           (kFreq, some ("m".data)), (kStart, none), (kEnd, none), (kFin, none),
           (kRate, none), (kAgg, none), (kUnit, some ("bln_rub".data))] := by
  refine ⟨?_, ?_, ?_, rfl⟩
  · intro s pre t4 u rest h ht4
    subst ht4
    unfold InnerPath
    rw [h]
    rfl
  · intro s pre h hr
    unfold InnerPath
    rw [h]
    dsimp only [finalizeInner]
    rw [hr]
    rfl
  · intro s pre r h hr hmem
    unfold InnerPath
    rw [h]
    dsimp only [finalizeInner]
    rw [hr, pyTruthy_some_ne (rates_ne_nil r hmem)]
    rfl

/-- C6 witness: one unclaimed token becomes the unit. -/
theorem c6_unit_assignment_witness :
    InnerPath ("bln_rub".data) =
      .ok ⟨none, none, none, none, none, some ("bln_rub".data)⟩ :=
  c6_unit_assignment.1 ("bln_rub".data) ⟨none, none, none, none, none⟩
    (["bln_rub".data]) ("bln_rub".data) [] rfl rfl

/-- C7 counterexample: "api/ru/series/EXPORT_GOODS/m/bln_rub" has no
finaliser token, and the fin key of the result is None — no canonical
default such as "list" is applied. -/
theorem c7_counterexample :
    mimic_custom_api ("api/ru/series/EXPORT_GOODS/m/bln_rub".data) =
      .ok [(kDomain, some ("ru".data)), (kVarname, some ("EXPORT_GOODS".data)),
           (kFreq, some ("m".data)), (kStart, none), (kEnd, none), (kFin, none),
           (kRate, none), (kAgg, none), (kUnit, some ("bln_rub".data))] ∧
    valOf [(kDomain, some ("ru".data)), (kVarname, some ("EXPORT_GOODS".data)),
           (kFreq, some ("m".data)), (kStart, none), (kEnd, none), (kFin, none),
           (kRate, none), (kAgg, none), (kUnit, some ("bln_rub".data))]
      kFin = some none :=
  ⟨rfl, rfl⟩

/-- C7 amended: when no inner-path token belongs to the finaliser
vocabulary the fin field stays None (absent); the source never applies
the "list" default its comment mentions. -/
theorem c7_fin_stays_none (s : Str) (d : InnerDict)
    (h : InnerPath s = .ok d)
    (hno : ∀ x ∈ ALLOWED_FINALISERS, x ∉ tokenize s) : d.fin = none := by
  unfold InnerPath at h
  rcases hic : innerCoreToks (tokenize s) with e | ⟨pre, t4⟩
  · rw [hic] at h; exact absurd h (by simp)
  rw [hic] at h
  dsimp only at h
  have hd : d = finalizeInner pre t4 := (Except.ok.inj h).symm
  rw [hd, finalizeInner_fin]
  obtain ⟨t1, t2, ht1, hfin⟩ := (innerCoreToks_facts hic).fin_stage
  rcases assign_values_shape hfin with ⟨h1, _⟩ | ⟨x, h1, h2, h3, _⟩
  · exact h1
  · exact absurd (ht1 x h3) (hno x h2)

/-- C7 witness: a unit-only inner path keeps fin at None. -/
theorem c7_fin_stays_none_witness :
    (⟨none, none, none, none, none, some ("bln_rub".data)⟩ : InnerDict).fin = none :=
  c7_fin_stays_none ("bln_rub".data) _ rfl (by decide)

/-- C8 counterexample: decompose succeeds on the five-segment path
"api/ru/series/USDRUR_CB/d", but the derived query-parameter operation
raises KeyError('unit') instead of producing the {name, freq} mapping. -/
theorem c8_counterexample :
    mimic_custom_api ("api/ru/series/USDRUR_CB/d".data) =
      .ok [(kDomain, some ("ru".data)), (kVarname, some ("USDRUR_CB".data)),
           (kFreq, some ("d".data))] ∧
    make_db_api_get_call_parameters ("api/ru/series/USDRUR_CB/d".data) =
      .error (.keyError kUnit) :=
  ⟨rfl, rfl⟩

/-- C8 amended: whenever decompose succeeds with the inner-path keys
present, the derived parameters map name to the varname (suffixed with
an underscore and the unit when one is present), freq to the parsed
frequency, and contain each date key exactly when that date is present;
five-segment paths instead fail with KeyError('unit'). -/
theorem c8_query_params (path : Str) (dm v f : Str) (d : InnerDict)
    (h : mimic_custom_api path = .ok (baseCtx dm v f ++ innerPairs d)) :
    make_db_api_get_call_parameters path =
      .ok ([(kName, some (match d.unit with
                          | some u => v ++ '_' :: u
                          | none => v)),
            (kFreq, some f)]
        ++ (if d.start_date.isSome then [(kStart, d.start_date)] else [])
        ++ (if d.end_date.isSome then [(kEnd, d.end_date)] else [])) ∧
    (∀ params, make_db_api_get_call_parameters path = .ok params →
      hasKeyB params kStart = d.start_date.isSome ∧
      hasKeyB params kEnd = d.end_date.isSome) := by
  have hunit : pyTruthy d.unit = d.unit.isSome := by
    cases hu : d.unit with
    | none => rfl
    | some u =>
      exact pyTruthy_some_ne (mimic_unit_ne_nil h u (by rw [valOf_full_unit, hu]))
  have hstart : pyTruthy d.start_date = d.start_date.isSome := by
    cases hs : d.start_date with
    | none => rfl
    | some sdate =>
      exact pyTruthy_some_ne (mimic_start_ne_nil h sdate (by rw [valOf_full_start, hs]))
  have hend : pyTruthy d.end_date = d.end_date.isSome := by
    cases he : d.end_date with
    | none => rfl
    | some edate =>
      exact pyTruthy_some_ne (mimic_end_ne_nil h edate (by rw [valOf_full_end, he]))
  have hmain : make_db_api_get_call_parameters path =
      .ok ([(kName, some (match d.unit with
                          | some u => v ++ '_' :: u
                          | none => v)),
            (kFreq, some f)]
        ++ (if d.start_date.isSome then [(kStart, d.start_date)] else [])
        ++ (if d.end_date.isSome then [(kEnd, d.end_date)] else [])) := by
    unfold make_db_api_get_call_parameters
    rw [h]
    dsimp only
    rw [show dictGet (baseCtx dm v f ++ innerPairs d) kVarname = .ok (some v) from rfl]
    rw [show dictGet (baseCtx dm v f ++ innerPairs d) kUnit = .ok d.unit from rfl]
    rw [show dictGet (baseCtx dm v f ++ innerPairs d) kFreq = .ok (some f) from rfl]
    rw [show dictGet (baseCtx dm v f ++ innerPairs d) kStart = .ok d.start_date from rfl]
    rw [show dictGet (baseCtx dm v f ++ innerPairs d) kEnd = .ok d.end_date from rfl]
    dsimp only
    rw [hunit, hstart, hend]
    cases hu : d.unit with
    | none => rfl
    | some u => rfl
  refine ⟨hmain, ?_⟩
  intro params hp
  rw [hmain] at hp
  have hp2 := (Except.ok.inj hp).symm
  subst hp2
  constructor
  · cases hs : d.start_date <;> cases he : d.end_date <;> rfl
  · cases hs : d.start_date <;> cases he : d.end_date <;> rfl

/-- C8 witness: the unit path of the source's own test table produces
name=EXPORT_GOODS_bln_rub and freq=m with no date keys. -/
theorem c8_query_params_witness :
    make_db_api_get_call_parameters ("api/ru/series/EXPORT_GOODS/m/bln_rub".data) =
      .ok [(kName, some ("EXPORT_GOODS_bln_rub".data)), (kFreq, some ("m".data))] :=
  (c8_query_params ("api/ru/series/EXPORT_GOODS/m/bln_rub".data)
    ("ru".data) ("EXPORT_GOODS".data) ("m".data)
    ⟨none, none, none, none, none, some ("bln_rub".data)⟩ rfl).1

/-- C10: a well-formed five-segment path with a valid frequency
decomposes to a mapping holding only the domain, varname and freq keys
— no unit, rate, agg, fin or date keys at all — and the derived
query-parameter operation on such a path fails with KeyError('unit'). -/
theorem c10_bare_path_keyerror (path dm v f : Str)
    (hstart : startsApi path = true)
    (htok : tokenize path = ["api".data, dm, "series".data, v, f])
    (hfreq : get_freq f = .ok f) :
    mimic_custom_api path = .ok (baseCtx dm v f) ∧
    hasKeyB (baseCtx dm v f) kUnit = false ∧
    hasKeyB (baseCtx dm v f) kRate = false ∧
    hasKeyB (baseCtx dm v f) kAgg = false ∧
    hasKeyB (baseCtx dm v f) kFin = false ∧
    hasKeyB (baseCtx dm v f) kStart = false ∧
    hasKeyB (baseCtx dm v f) kEnd = false ∧
    make_db_api_get_call_parameters path = .error (.keyError kUnit) := by
  have hmimic : mimic_custom_api path = .ok (baseCtx dm v f) := by
    unfold mimic_custom_api
    rw [hstart, if_pos rfl, htok]
    dsimp only [List.get?]
    rw [hfreq]
    rfl
  refine ⟨hmimic, rfl, rfl, rfl, rfl, rfl, rfl, ?_⟩
  unfold make_db_api_get_call_parameters
  rw [hmimic]
  rfl

/-- C10 witness: a concrete bare five-segment path. -/
theorem c10_bare_path_keyerror_witness :
    mimic_custom_api ("api/ru/series/PROD/d".data) =
      .ok (baseCtx ("ru".data) ("PROD".data) ("d".data)) ∧
    hasKeyB (baseCtx ("ru".data) ("PROD".data) ("d".data)) kUnit = false ∧
    hasKeyB (baseCtx ("ru".data) ("PROD".data) ("d".data)) kRate = false ∧
    hasKeyB (baseCtx ("ru".data) ("PROD".data) ("d".data)) kAgg = false ∧
    hasKeyB (baseCtx ("ru".data) ("PROD".data) ("d".data)) kFin = false ∧
    hasKeyB (baseCtx ("ru".data) ("PROD".data) ("d".data)) kStart = false ∧
    hasKeyB (baseCtx ("ru".data) ("PROD".data) ("d".data)) kEnd = false ∧
    make_db_api_get_call_parameters ("api/ru/series/PROD/d".data) =
      .error (.keyError kUnit) :=
  c10_bare_path_keyerror ("api/ru/series/PROD/d".data)
    ("ru".data) ("PROD".data) ("d".data) rfl rfl rfl

/-! ### Reconstruction (claim C9) -/

theorem aggs_clean : ∀ x ∈ ALLOWED_AGGREGATORS, cleanTok x := by decide
theorem fins_clean : ∀ x ∈ ALLOWED_FINALISERS, cleanTok x := by decide
theorem aggs_not_digits : ∀ x ∈ ALLOWED_AGGREGATORS, isDigits x = false := by decide
theorem fins_not_digits : ∀ x ∈ ALLOWED_FINALISERS, isDigits x = false := by decide







theorem assign_fin_reparse (agg fin : Option Str)
    (hagg : ∀ x, agg = some x → x ∈ ALLOWED_AGGREGATORS)
    (hfin : ∀ x, fin = some x → x ∈ ALLOWED_FINALISERS) :
    assign_values (optL agg ++ optL fin) ALLOWED_FINALISERS = .ok (fin, optL agg) := by
  cases agg with
  | none =>
    cases fin with
    | none => decide
    | some x =>
      have hx := hfin x rfl
      simp only [ALLOWED_FINALISERS, List.mem_cons, List.not_mem_nil, or_false] at hx
      rcases hx with rfl | rfl | rfl | rfl | rfl <;> decide
  | some a =>
    have ha := hagg a rfl
    simp only [ALLOWED_AGGREGATORS, List.mem_cons, List.not_mem_nil, or_false] at ha
    cases fin with
    | none => rcases ha with rfl | rfl <;> decide
    | some x =>
      have hx := hfin x rfl
      simp only [ALLOWED_FINALISERS, List.mem_cons, List.not_mem_nil, or_false] at hx
      rcases ha with rfl | rfl <;> rcases hx with rfl | rfl | rfl | rfl | rfl <;> decide

theorem assign_rate_reparse (agg : Option Str)
    (hagg : ∀ x, agg = some x → x ∈ ALLOWED_AGGREGATORS) :
    assign_values (optL agg) ALLOWED_REAL_RATES = .ok (none, optL agg) := by
  cases agg with
  | none => decide
  | some a =>
    have ha := hagg a rfl
    simp only [ALLOWED_AGGREGATORS, List.mem_cons, List.not_mem_nil, or_false] at ha
    rcases ha with rfl | rfl <;> decide

theorem assign_agg_reparse (agg : Option Str)
    (hagg : ∀ x, agg = some x → x ∈ ALLOWED_AGGREGATORS) :
    assign_values (optL agg) ALLOWED_AGGREGATORS = .ok (agg, []) := by
  cases agg with
  | none => decide
  | some a =>
    have ha := hagg a rfl
    simp only [ALLOWED_AGGREGATORS, List.mem_cons, List.not_mem_nil, or_false] at ha
    rcases ha with rfl | rfl <;> decide



theorem filter_digits_optL {o : Option Str} {voc : List Str}
    (hv : ∀ x, o = some x → x ∈ voc) (hnd : ∀ x ∈ voc, isDigits x = false) :
    (optL o).filter isDigits = [] := by
  cases o with
  | none => rfl
  | some x => simp [optL, hnd x (hv x rfl)]

theorem not_mem_optL_digits {y : Str} {o : Option Str} {voc : List Str}
    (hy : isDigits y = true) (hv : ∀ x, o = some x → x ∈ voc)
    (hnd : ∀ x ∈ voc, isDigits x = false) : y ∉ optL o := by
  cases o with
  | none => simp [optL]
  | some x =>
    simp only [optL, List.mem_singleton]
    intro heq
    rw [heq] at hy
    exact absurd hy (by rw [hnd x (hv x rfl)]; simp)

theorem dates_reparse (sd ed : Option Str) (agg fin : Option Str)
    (hagg : ∀ x, agg = some x → x ∈ ALLOWED_AGGREGATORS)
    (hfin : ∀ x, fin = some x → x ∈ ALLOWED_FINALISERS)
    (hsd : sd = none ∨ ∃ n, 1 ≤ n ∧ n ≤ 9999 ∧ sd = some (natToStr n ++ "-01-01".data))
    (hed : ed = none ∨ ∃ n, 1 ≤ n ∧ n ≤ 9999 ∧ ed = some (natToStr n ++ "-12-31".data))
    (hes : ed.isSome = true → sd.isSome = true) :
    assign_dates (optL agg ++ (optYear sd ++ optYear ed) ++ optL fin) =
      .ok ((sd, ed), optL agg ++ optL fin) := by
  rcases hsd with hsdn | ⟨n, hn1, hn2, hsdv⟩
  · have hedn : ed = none := by
      cases hede : ed with
      | none => rfl
      | some x =>
        have := hes (by rw [hede]; rfl)
        rw [hsdn] at this
        exact absurd this (by simp)
    subst hsdn; subst hedn
    have htoks : optL agg ++ (optYear (none : Option Str) ++ optYear none) ++ optL fin
        = optL agg ++ optL fin := by simp [optYear]
    rw [htoks]
    have hfil : (optL agg ++ optL fin).filter isDigits = [] := by
      rw [List.filter_append, filter_digits_optL hagg aggs_not_digits,
        filter_digits_optL hfin fins_not_digits]
      rfl
    have hgy : get_years (optL agg ++ optL fin) = ((none, none), optL agg ++ optL fin) := by
      unfold get_years
      rw [hfil]
    unfold assign_dates
    rw [hgy]
    rfl
  · have hyn : yearOf (natToStr n ++ "-01-01".data) = natToStr n :=
      yearOf_dateStr n ("01-01".data)
    rcases hed with hedn | ⟨m, hm1, hm2, hedv⟩
    · subst hsdv; subst hedn
      have htoks : optL agg ++ (optYear (some (natToStr n ++ "-01-01".data))
            ++ optYear none) ++ optL fin
          = optL agg ++ natToStr n :: optL fin := by
        simp [optYear, hyn]
      rw [htoks]
      have hfil : (optL agg ++ natToStr n :: optL fin).filter isDigits = [natToStr n] := by
        rw [List.filter_append, filter_digits_optL hagg aggs_not_digits,
          List.filter_cons_of_pos (by simp [isDigits_natToStr]),
          filter_digits_optL hfin fins_not_digits]
        simp
      have herase : eraseFirst (optL agg ++ natToStr n :: optL fin) (natToStr n)
          = optL agg ++ optL fin :=
        eraseFirst_append_not_mem (optL fin)
          (not_mem_optL_digits (isDigits_natToStr n) hagg aggs_not_digits)
      have hgy : get_years (optL agg ++ natToStr n :: optL fin)
          = ((some (natToStr n), none), optL agg ++ optL fin) := by
        unfold get_years
        rw [hfil]
        dsimp only
        rw [herase]
      unfold assign_dates
      rw [hgy]
      dsimp only
      rw [as_date_start_eval hn1 hn2]
      rfl
    · have hym : yearOf (natToStr m ++ "-12-31".data) = natToStr m :=
        yearOf_dateStr m ("12-31".data)
      subst hsdv; subst hedv
      have htoks : optL agg ++ (optYear (some (natToStr n ++ "-01-01".data))
            ++ optYear (some (natToStr m ++ "-12-31".data))) ++ optL fin
          = optL agg ++ natToStr n :: natToStr m :: optL fin := by
        simp [optYear, hyn, hym]
      rw [htoks]
      have hfil : (optL agg ++ natToStr n :: natToStr m :: optL fin).filter isDigits
          = [natToStr n, natToStr m] := by
        rw [List.filter_append, filter_digits_optL hagg aggs_not_digits,
          List.filter_cons_of_pos (by simp [isDigits_natToStr]),
          List.filter_cons_of_pos (by simp [isDigits_natToStr]),
          filter_digits_optL hfin fins_not_digits]
        simp
      have herase1 : eraseFirst (optL agg ++ natToStr n :: natToStr m :: optL fin)
          (natToStr n) = optL agg ++ natToStr m :: optL fin :=
        eraseFirst_append_not_mem (natToStr m :: optL fin)
          (not_mem_optL_digits (isDigits_natToStr n) hagg aggs_not_digits)
      have herase2 : eraseFirst (optL agg ++ natToStr m :: optL fin) (natToStr m)
          = optL agg ++ optL fin :=
        eraseFirst_append_not_mem (optL fin)
          (not_mem_optL_digits (isDigits_natToStr m) hagg aggs_not_digits)
      have hgy : get_years (optL agg ++ natToStr n :: natToStr m :: optL fin)
          = ((some (natToStr n), some (natToStr m)), optL agg ++ optL fin) := by
        unfold get_years
        rw [hfil]
        dsimp only
        rw [herase1, herase2]
      unfold assign_dates
      rw [hgy]
      dsimp only
      rw [as_date_start_eval hn1 hn2, as_date_end_eval hm1 hm2]

theorem innerCore_reparse (sd ed fin agg : Option Str)
    (hagg : ∀ x, agg = some x → x ∈ ALLOWED_AGGREGATORS)
    (hfin : ∀ x, fin = some x → x ∈ ALLOWED_FINALISERS)
    (hsd : sd = none ∨ ∃ n, 1 ≤ n ∧ n ≤ 9999 ∧ sd = some (natToStr n ++ "-01-01".data))
    (hed : ed = none ∨ ∃ n, 1 ≤ n ∧ n ≤ 9999 ∧ ed = some (natToStr n ++ "-12-31".data))
    (hes : ed.isSome = true → sd.isSome = true) :
    innerCoreToks (optL agg ++ (optYear sd ++ optYear ed) ++ optL fin) =
      .ok (⟨sd, ed, fin, none, agg⟩, []) := by
  unfold innerCoreToks
  rw [dates_reparse sd ed agg fin hagg hfin hsd hed hes]
  dsimp only
  rw [assign_fin_reparse agg fin hagg hfin]
  dsimp only
  rw [assign_rate_reparse agg hagg]
  dsimp only
  rw [assign_agg_reparse agg hagg]
  rfl

theorem startsApi_join (t : Str) (rest : List Str) :
    startsApi (joinTok ("api".data :: t :: rest)) = true := rfl

theorem optL_eq_nil {o : Option Str} (h : optL o = []) : o = none := by
  cases o with
  | none => rfl
  | some x => simp [optL] at h

theorem optYear_eq_nil {o : Option Str} (h : optYear o = []) : o = none := by
  cases o with
  | none => rfl
  | some x => simp [optYear] at h

theorem mem_optYear_start {p : Str} {o : Option Str}
    (hshape : o = none ∨ ∃ n, 1 ≤ n ∧ n ≤ 9999 ∧ o = some (natToStr n ++ "-01-01".data))
    (hp : p ∈ optYear o) : ∃ n, p = natToStr n := by
  rcases hshape with rfl | ⟨n, _, _, heq⟩
  · simp [optYear] at hp
  · rw [heq] at hp
    simp only [optYear, List.mem_singleton] at hp
    exact ⟨n, by rw [hp]; exact yearOf_dateStr n ("01-01".data)⟩

theorem mem_optYear_end {p : Str} {o : Option Str}
    (hshape : o = none ∨ ∃ n, 1 ≤ n ∧ n ≤ 9999 ∧ o = some (natToStr n ++ "-12-31".data))
    (hp : p ∈ optYear o) : ∃ n, p = natToStr n := by
  rcases hshape with rfl | ⟨n, _, _, heq⟩
  · simp [optYear] at hp
  · rw [heq] at hp
    simp only [optYear, List.mem_singleton] at hp
    exact ⟨n, by rw [hp]; exact yearOf_dateStr n ("12-31".data)⟩

theorem reconstruct_base (dm v f : Str) :
    reconstruct (baseCtx dm v f) =
      joinTok ["api".data, dm, "series".data, v, f] := rfl

theorem reconstruct_full (dm v f : Str) (d : InnerDict) (hrate : d.rate = none) :
    reconstruct (baseCtx dm v f ++ innerPairs d) =
      joinTok (["api".data, dm, "series".data, v, f]
        ++ optL d.agg ++ (optYear d.start_date ++ optYear d.end_date)
        ++ optL d.fin) := by
  unfold reconstruct
  simp only [valOf_full_rate, valOf_full_agg, valOf_full_start, valOf_full_end,
    valOf_full_fin, valOf_full_domain, valOf_full_varname, valOf_full_freq,
    Option.getD_some, hrate]
  rfl

theorem mimic_eval_base (path dm v f : Str)
    (hstart : startsApi path = true)
    (htok : tokenize path = ["api".data, dm, "series".data, v, f])
    (hfreq : get_freq f = .ok f) :
    mimic_custom_api path = .ok (baseCtx dm v f) := by
  unfold mimic_custom_api
  rw [hstart, if_pos rfl, htok]
  dsimp only [List.get?]
  rw [hfreq]
  rfl

theorem mimic_eval_inner (path dm v f : Str) (inner : List Str) (d : InnerDict)
    (hstart : startsApi path = true)
    (htok : tokenize path = "api".data :: dm :: "series".data :: v :: f :: inner)
    (hfreq : get_freq f = .ok f)
    (hne : inner ≠ [])
    (hip : InnerPath (joinTok inner) = .ok d) :
    mimic_custom_api path = .ok (baseCtx dm v f ++ innerPairs d) := by
  unfold mimic_custom_api
  rw [hstart, if_pos rfl, htok]
  dsimp only [List.get?]
  rw [hfreq]
  dsimp only
  have hlen : 6 ≤ ("api".data :: dm :: "series".data :: v :: f :: inner).length := by
    simp only [List.length_cons]
    have := List.length_pos.mpr hne
    omega
  rw [if_pos hlen]
  dsimp only [List.drop]
  rw [hip]

/-- C9 amended: re-decomposing the canonical path reconstructed in the
spec's order (api/domain/series/varname/freq/rate-or-agg/start/end/fin,
with dates rendered by their year) returns the original PathQuery,
provided the mandatory segments are non-blank and the PathQuery has no
unit (the reconstruction order has no unit slot) — and, when the inner
keys are present, at least one of agg, fin, start_date is set (an
all-None inner dict reconstructs to five segments whose re-decomposition
has only the three mandatory keys). -/
theorem c9_reconstruct_roundtrip (path : Str) (ctx : Ctx)
    (h : mimic_custom_api path = .ok ctx)
    (hdm : ∀ x, valOf ctx kDomain = some (some x) → x ≠ [])
    (hv : ∀ x, valOf ctx kVarname = some (some x) → x ≠ [])
    (hfq : ∀ x, valOf ctx kFreq = some (some x) → x ≠ [])
    (hunit : valOf ctx kUnit = none ∨ valOf ctx kUnit = some none)
    (hinner : valOf ctx kUnit = some none →
      ¬(valOf ctx kAgg = some none ∧ valOf ctx kFin = some none ∧
        valOf ctx kStart = some none)) :
    mimic_custom_api (reconstruct ctx) = .ok ctx := by
  rcases mimic_shape h with
    ⟨dm, v, f, hcdm, hcv, hcf, hfok, hbase | ⟨pre, t4, hfacts, ht4ne, hfull⟩⟩
  · -- no inner path: the reconstruction is the bare five-segment path
    subst hbase
    have hdm' : dm ≠ [] := hdm dm (valOf_base_domain dm v f)
    have hv' : v ≠ [] := hv v (valOf_base_varname dm v f)
    have hf' : f ≠ [] := hfq f (valOf_base_freq dm v f)
    have hclean : ∀ p ∈ (["api".data, dm, "series".data, v, f] : List Str),
        cleanTok p := by
      intro p hp
      simp only [List.mem_cons, List.not_mem_nil, or_false] at hp
      rcases hp with rfl | rfl | rfl | rfl | rfl
      · decide
      · exact hcdm
      · decide
      · exact hcv
      · exact hcf
    have hne : ∀ p ∈ (["api".data, dm, "series".data, v, f] : List Str), p ≠ [] := by
      intro p hp
      simp only [List.mem_cons, List.not_mem_nil, or_false] at hp
      rcases hp with rfl | rfl | rfl | rfl | rfl
      · decide
      · exact hdm'
      · decide
      · exact hv'
      · exact hf'
    have htok : tokenize (joinTok ["api".data, dm, "series".data, v, f]) =
        ["api".data, dm, "series".data, v, f] :=
      tokenize_joinTok_full (by simp) hclean hne
    rw [reconstruct_base]
    exact mimic_eval_base _ dm v f (startsApi_join dm _) htok hfok
  · -- inner path present and unit none
    obtain ⟨sd, ed, fin, rate, agg⟩ := pre
    have hun : (finalizeInner ⟨sd, ed, fin, rate, agg⟩ t4).unit = none := by
      rcases hunit with hu | hu
      · rw [hfull, valOf_full_unit] at hu
        exact absurd hu (by simp)
      · rw [hfull, valOf_full_unit] at hu
        exact Option.some.inj hu
    have ht4nil : t4 = [] := by
      cases t4 with
      | nil => rfl
      | cons u rest => exact absurd hun (by simp [finalizeInner])
    subst ht4nil
    have hrate : rate = none := by
      cases hr : rate with
      | none => rfl
      | some r =>
        have hmem := hfacts.rate_mem r hr
        rw [show (finalizeInner ⟨sd, ed, fin, rate, agg⟩ []).unit
            = if pyTruthy rate then rate else none from rfl, hr,
          pyTruthy_some_ne (rates_ne_nil r hmem)] at hun
        exact absurd hun (by simp)
    subst hrate
    have hctx : ctx = baseCtx dm v f ++ innerPairs ⟨sd, ed, fin, none, agg, none⟩ := by
      rw [hfull]
      rfl
    have hdm' : dm ≠ [] := hdm dm (by rw [hctx]; rfl)
    have hv' : v ≠ [] := hv v (by rw [hctx]; rfl)
    have hf' : f ≠ [] := hfq f (by rw [hctx]; rfl)
    have hcontra := hinner (by rw [hctx]; rfl)
    have hneinner : (optL agg ++ (optYear sd ++ optYear ed) ++ optL fin) ≠ [] := by
      intro hnil
      simp only [List.append_eq_nil] at hnil
      obtain ⟨⟨hA, hS, hE⟩, hC⟩ := hnil
      have ha := optL_eq_nil hA
      have hs := optYear_eq_nil hS
      have hc := optL_eq_nil hC
      subst ha; subst hs; subst hc
      exact hcontra ⟨by rw [hctx]; rfl, by rw [hctx]; rfl, by rw [hctx]; rfl⟩
    have hinnerclean : ∀ p ∈ (optL agg ++ (optYear sd ++ optYear ed) ++ optL fin),
        cleanTok p ∧ p ≠ [] := by
      intro p hp
      rcases List.mem_append.mp hp with hp1 | hpC
      · rcases List.mem_append.mp hp1 with hpA | hpY
        · cases hag : agg with
          | none => rw [hag] at hpA; simp [optL] at hpA
          | some a =>
            rw [hag] at hpA
            simp only [optL, List.mem_singleton] at hpA
            subst hpA
            have hmem := hfacts.agg_mem p hag
            exact ⟨aggs_clean p hmem, aggs_ne_nil p hmem⟩
        · rcases List.mem_append.mp hpY with hpS | hpE
          · obtain ⟨n, rfl⟩ := mem_optYear_start hfacts.start_shape hpS
            exact ⟨cleanTok_natToStr n, natToStr_ne_nil n⟩
          · obtain ⟨n, rfl⟩ := mem_optYear_end hfacts.end_shape hpE
            exact ⟨cleanTok_natToStr n, natToStr_ne_nil n⟩
      · cases hfi : fin with
        | none => rw [hfi] at hpC; simp [optL] at hpC
        | some x =>
          rw [hfi] at hpC
          simp only [optL, List.mem_singleton] at hpC
          subst hpC
          have hmem := hfacts.fin_mem p hfi
          exact ⟨fins_clean p hmem, fins_ne_nil p hmem⟩
    have hip : InnerPath (joinTok (optL agg ++ (optYear sd ++ optYear ed) ++ optL fin)) =
        .ok ⟨sd, ed, fin, none, agg, none⟩ := by
      unfold InnerPath
      rw [tokenize_joinTok_full hneinner (fun p hp => (hinnerclean p hp).1)
        (fun p hp => (hinnerclean p hp).2)]
      rw [innerCore_reparse sd ed fin agg hfacts.agg_mem hfacts.fin_mem
        hfacts.start_shape hfacts.end_shape hfacts.end_imp_start]
      rfl
    have hclean5 : ∀ p ∈ (["api".data, dm, "series".data, v, f] : List Str),
        cleanTok p ∧ p ≠ [] := by
      intro p hp
      simp only [List.mem_cons, List.not_mem_nil, or_false] at hp
      rcases hp with rfl | rfl | rfl | rfl | rfl
      · exact ⟨by decide, by decide⟩
      · exact ⟨hcdm, hdm'⟩
      · exact ⟨by decide, by decide⟩
      · exact ⟨hcv, hv'⟩
      · exact ⟨hcf, hf'⟩
    have htokfull : tokenize (joinTok (["api".data, dm, "series".data, v, f]
        ++ optL agg ++ (optYear sd ++ optYear ed) ++ optL fin)) =
        ["api".data, dm, "series".data, v, f]
          ++ optL agg ++ (optYear sd ++ optYear ed) ++ optL fin := by
      apply tokenize_joinTok_full
      · intro hnil
        simp only [List.append_eq_nil] at hnil
        exact absurd hnil.1.1.1 (by simp)
      · intro p hp
        rcases List.mem_append.mp hp with hp1 | hpC
        · rcases List.mem_append.mp hp1 with hp2 | hpY
          · rcases List.mem_append.mp hp2 with hp5 | hpA
            · exact (hclean5 p hp5).1
            · exact (hinnerclean p (List.mem_append.mpr
                (Or.inl (List.mem_append.mpr (Or.inl hpA))))).1
          · exact (hinnerclean p (List.mem_append.mpr
              (Or.inl (List.mem_append.mpr (Or.inr hpY))))).1
        · exact (hinnerclean p (List.mem_append.mpr (Or.inr hpC))).1
      · intro p hp
        rcases List.mem_append.mp hp with hp1 | hpC
        · rcases List.mem_append.mp hp1 with hp2 | hpY
          · rcases List.mem_append.mp hp2 with hp5 | hpA
            · exact (hclean5 p hp5).2
            · exact (hinnerclean p (List.mem_append.mpr
                (Or.inl (List.mem_append.mpr (Or.inl hpA))))).2
          · exact (hinnerclean p (List.mem_append.mpr
              (Or.inl (List.mem_append.mpr (Or.inr hpY))))).2
        · exact (hinnerclean p (List.mem_append.mpr (Or.inr hpC))).2
    have hrecon : reconstruct ctx = joinTok (["api".data, dm, "series".data, v, f]
        ++ optL agg ++ (optYear sd ++ optYear ed) ++ optL fin) := by
      rw [hctx]
      exact reconstruct_full dm v f ⟨sd, ed, fin, none, agg, none⟩ rfl
    rw [hrecon, hctx]
    exact mimic_eval_inner _ dm v f
      (optL agg ++ (optYear sd ++ optYear ed) ++ optL fin)
      ⟨sd, ed, fin, none, agg, none⟩
      (startsApi_join dm ("series".data :: v :: f ::
        (optL agg ++ (optYear sd ++ optYear ed) ++ optL fin)))
      htokfull hfok hneinner hip

/-- C9 counterexample: the PathQuery of api/ru/series/GDP/q/bln_rub has
unit=bln_rub, the spec's reconstruction order omits the unit, and
re-decomposing the reconstructed path api/ru/series/GDP/q yields a
three-key mapping different from the original. -/
theorem c9_counterexample :
    mimic_custom_api ("api/ru/series/GDP/q/bln_rub".data) =
      .ok [(kDomain, some ("ru".data)), (kVarname, some ("GDP".data)),
           (kFreq, some ("q".data)), (kStart, none), (kEnd, none), (kFin, none),
           (kRate, none), (kAgg, none), (kUnit, some ("bln_rub".data))] ∧
    reconstruct [(kDomain, some ("ru".data)), (kVarname, some ("GDP".data)),
           (kFreq, some ("q".data)), (kStart, none), (kEnd, none), (kFin, none),
           (kRate, none), (kAgg, none), (kUnit, some ("bln_rub".data))] =
      ("api/ru/series/GDP/q".data) ∧
    mimic_custom_api ("api/ru/series/GDP/q".data) =
      .ok [(kDomain, some ("ru".data)), (kVarname, some ("GDP".data)),
           (kFreq, some ("q".data))] ∧
    ([(kDomain, some ("ru".data)), (kVarname, some ("GDP".data)),
      (kFreq, some ("q".data))] : Ctx) ≠
      [(kDomain, some ("ru".data)), (kVarname, some ("GDP".data)),
       (kFreq, some ("q".data)), (kStart, none), (kEnd, none), (kFin, none),
       (kRate, none), (kAgg, none), (kUnit, some ("bln_rub".data))] :=
  ⟨rfl, rfl, rfl, by decide⟩

/-- C9 witness: round trip at a decomposition with agg, one year and a
finaliser, and no unit. -/
theorem c9_reconstruct_roundtrip_witness :
    mimic_custom_api (reconstruct
      [(kDomain, some ("oil".data)), (kVarname, some ("BRENT".data)),
       (kFreq, some ("m".data)), (kStart, some ("2015-01-01".data)), (kEnd, none),
       (kFin, some ("csv".data)), (kRate, none), (kAgg, some ("eop".data)),
       (kUnit, none)]) =
    .ok [(kDomain, some ("oil".data)), (kVarname, some ("BRENT".data)),
       (kFreq, some ("m".data)), (kStart, some ("2015-01-01".data)), (kEnd, none),
       (kFin, some ("csv".data)), (kRate, none), (kAgg, some ("eop".data)),
       (kUnit, none)] :=
  c9_reconstruct_roundtrip ("api/oil/series/BRENT/m/eop/2015/csv".data) _ rfl
    (fun x hx hxnil => absurd (hxnil ▸ hx) (by decide))
    (fun x hx hxnil => absurd (hxnil ▸ hx) (by decide))
    (fun x hx hxnil => absurd (hxnil ▸ hx) (by decide))
    (Or.inr rfl)
    (fun _ h3 => absurd h3.1 (by decide))

end CustomApi
